import Mathlib

/-!
# Newspaper agency: a shallow embedding of `src/main.cpp`

The C++ classes `Publication`, `Customer`, `DeliveryPerson` and
`NewspaperAgency` are embedded as structures with pure update functions.
The development has two parts, which embed the same source twice.

* Part I (namespace `NewspaperAgency`) reads `double` as the exact rationals
  `ℚ`.  It carries the properties in which the arithmetic of `double` plays
  no part (schedule generation, map lookups, frames of the operations, the
  driver), which are evaluated at values that binary64 represents and
  combines exactly, or which do not depend on how a result is rounded.
* Part II (namespace `NewspaperAgency.Binary64`) reads `double` as IEEE 754
  binary64: every `+`, `-` and `*` of the source is one operation rounded to
  nearest with ties to even (no extended precision, no fused multiply-add),
  a decimal literal is the nearest double, comparisons with NaN are false.
  It carries the properties that depend on rounding, overflow or NaN.

Conventions common to both parts:

* In Part I the literal `0.025` is `1/40` and `1.5` is `3/2`.
* `std::vector` is `List` (`push_back` appends at the end).
* `std::map<string, _>` is a key-sorted association list with `find`,
  `operator[]` (which inserts a default entry on a missing key) and
  assignment through `operator[]`.
* Text sent to `std::cout` is a list of `Out` tokens, in order.
* A method that mutates its object returns the new object; a method of the
  agency that prints returns the new agency together with its output.
-/

namespace NewspaperAgency

/-! ## Data model -/

/-- The class `Publication` (main.cpp:10-16). -/
structure Publication where
  name : String
  pricePerCopy : ℚ
  deriving DecidableEq, Repr

/-- The class `Customer` (main.cpp:18-28), fields in declaration order. -/
structure Customer where
  name : String
  address : String
  subscriptions : List Publication
  dues : ℚ
  hasOutstandingDue : Bool
  deliveriesStopped : Bool
  stopRequests : List (String × String)
  deriving DecidableEq, Repr

/-- The class `DeliveryPerson` (main.cpp:81-86). -/
structure DeliveryPerson where
  name : String
  totalEarnings : ℚ
  deriving DecidableEq, Repr

/-- One schedule: `vector<pair<string, vector<Publication>>>`. -/
abbrev Schedule := List (String × List Publication)

/-- The map `map<string, vector<pair<string, vector<Publication>>>>`,
kept as an association list sorted by key. -/
abbrev ScheduleMap := List (String × Schedule)

/-- Data members of `class NewspaperAgency` (main.cpp:98-103). -/
structure Agency where
  publications : List Publication
  customers : List Customer
  deliveryPersons : List DeliveryPerson
  deliverySchedules : ScheduleMap
  deriving DecidableEq, Repr

/-- A token streamed to `std::cout`: a string (`endl` is the text "\n")
or a `double`. -/
inductive Out where
  | text (s : String)
  | num (q : ℚ)
  deriving DecidableEq, Repr

/-! ## `std::map` operations used by the program -/

/-- The lookup `m.find(k)`: the entry stored under `k`, or `none` for `m.end()`. -/
def mapFind (k : String) : ScheduleMap → Option Schedule
  | [] => none
  | (k', v) :: rest => if k' = k then some v else mapFind k rest

/-- The assignment `m[k] = v`: replaces the entry under `k`, or inserts it at its place in
key order. -/
def mapAssign (k : String) (v : Schedule) : ScheduleMap → ScheduleMap
  | [] => [(k, v)]
  | (k', v') :: rest =>
    if k < k' then (k, v) :: (k', v') :: rest
    else if k' = k then (k, v) :: rest
    else (k', v') :: mapAssign k v rest

/-- The access `m[k]` read as an rvalue: returns the entry under `k`; on a missing key
a default (empty) entry is inserted first.  Returns the entry and the map
after the access. -/
def mapIndex (k : String) (m : ScheduleMap) : Schedule × ScheduleMap :=
  match mapFind k m with
  | some v => (v, m)
  | none => ([], mapAssign k [] m)

/-! ## `Customer` -/

/-- Constructor `Customer(n, addr)` (main.cpp:28). -/
def Customer.new (n addr : String) : Customer :=
  { name := n, address := addr, subscriptions := [], dues := 0,
    hasOutstandingDue := false, deliveriesStopped := false, stopRequests := [] }

/-- Method `Customer::addSubscription` (main.cpp:30-32). -/
def Customer.addSubscription (c : Customer) (pub : Publication) : Customer :=
  { c with subscriptions := c.subscriptions ++ [pub] }

/-- The algorithm `std::find_if` as an index: the first index whose element satisfies
`pred`, or the length of the list (the end iterator). -/
def findIfIdx {α : Type} (pred : α → Bool) : List α → Nat
  | [] => 0
  | x :: rest => if pred x then 0 else findIfIdx pred rest + 1

/-- The loop of `std::remove_if` once the first match has been found:
`for (; first != last; ++first) if (!pred(*first)) { *result = move(*first); ++result; }`.
`i` is the read iterator `first`, `result` the write iterator, `v` the
current contents of the vector and `n` the number of iterations left
(`last - first`, known at loop entry).  The predicate may read the vector
(it does when it holds a reference to one of its elements), so it is given
the current contents.  The assignment is a `List.set`: the moved-from
element is left as it was, which the program cannot observe because every
position at or after `result` is either overwritten or erased before it is
read again. -/
def removeIfLoop {α : Type} (pred : List α → α → Bool) :
    Nat → List α → Nat → Nat → List α × Nat
  | 0, v, result, _ => (v, result)
  | n + 1, v, result, i =>
    match v[i]? with
    | none => (v, result)
    | some x =>
      if !pred v x then removeIfLoop pred n (v.set result x) (result + 1) (i + 1)
      else removeIfLoop pred n v result (i + 1)

/-- The algorithm `std::remove_if(v.begin(), v.end(), pred)`: returns the vector after the
shifting and the index of the returned iterator (the new logical end). -/
def removeIf {α : Type} (pred : List α → α → Bool) (v : List α) : List α × Nat :=
  let first := findIfIdx (pred v) v
  if first = v.length then (v, first)
  else removeIfLoop pred (v.length - (first + 1)) v first (first + 1)

/-- What the parameter `const Publication& pub` of `removeSubscription` is
bound to: a publication object outside the subscriptions vector, or the
element `subscriptions[k]` of the vector itself (`k` below its size). -/
inductive PubRef where
  | object (pub : Publication)
  | element (k : Nat)
  deriving DecidableEq, Repr

/-- The value of `pub.name` while the vector holds `v`. -/
def PubRef.name (v : List Publication) : PubRef → String
  | PubRef.object pub => pub.name
  | PubRef.element k =>
    match v[k]? with
    | some p => p.name
    | none => ""

/-- Method `Customer::removeSubscription` (main.cpp:34-39): `remove_if` with
the lambda `[&pub](const Publication& p) { return p.name == pub.name; }`,
then `erase(it, end)`.  The lambda captures `pub` by reference, so it reads
`pub.name` anew at every call. -/
def Customer.removeSubscription (c : Customer) (pub : PubRef) : Customer :=
  let r := removeIf (fun v p => decide (p.name = pub.name v)) c.subscriptions
  { c with subscriptions := r.1.take r.2 }

/-- Method `Customer::setDues` (main.cpp:41-44). -/
def Customer.setDues (c : Customer) (amount : ℚ) : Customer :=
  let c1 := { c with dues := amount }
  { c1 with hasOutstandingDue := decide (c1.dues > 0) }

/-- Method `Customer::makePayment` (main.cpp:46-52). -/
def Customer.makePayment (c : Customer) (amount : ℚ) : Customer :=
  let c1 := { c with dues := c.dues - amount }
  if c1.dues ≤ 0 then { c1 with dues := 0, hasOutstandingDue := false }
  else c1

/-- Method `Customer::getDues` (main.cpp:54-56). -/
def Customer.getDues (c : Customer) : ℚ := c.dues

/-- Method `Customer::getAddress` (main.cpp:58-60). -/
def Customer.getAddress (c : Customer) : String := c.address

/-- Method `Customer::requestStopDelivery` (main.cpp:62-65). -/
def Customer.requestStopDelivery (c : Customer) (startDate endDate : String) : Customer :=
  { c with stopRequests := c.stopRequests ++ [(startDate, endDate)],
           deliveriesStopped := true }

/-- Method `Customer::isDeliveryStopped` (main.cpp:67-74); `>=` and `<=` on
`std::string` are lexicographic. -/
def Customer.isDeliveryStopped (c : Customer) (currentDate : String) : Bool :=
  c.stopRequests.any (fun request =>
    decide (request.1 ≤ currentDate) && decide (currentDate ≤ request.2))

/-- Method `Customer::resumeDeliveries` (main.cpp:76-78). -/
def Customer.resumeDeliveries (c : Customer) : Customer :=
  { c with deliveriesStopped := false }

/-! ## `DeliveryPerson` -/

/-- Constructor `DeliveryPerson(n)` (main.cpp:86). -/
def DeliveryPerson.new (n : String) : DeliveryPerson :=
  { name := n, totalEarnings := 0 }

/-- Method `DeliveryPerson::addEarnings` (main.cpp:88-90). -/
def DeliveryPerson.addEarnings (dp : DeliveryPerson) (amount : ℚ) : DeliveryPerson :=
  { dp with totalEarnings := dp.totalEarnings + amount }

/-- Method `DeliveryPerson::getEarnings` (main.cpp:92-94). -/
def DeliveryPerson.getEarnings (dp : DeliveryPerson) : ℚ := dp.totalEarnings

/-! ## `NewspaperAgency` -/

/-- A default-constructed `NewspaperAgency`: every collection is empty. -/
def Agency.empty : Agency :=
  { publications := [], customers := [], deliveryPersons := [], deliverySchedules := [] }

/-- Method `NewspaperAgency::addPublication` (main.cpp:106-108). -/
def addPublication (a : Agency) (pub : Publication) : Agency :=
  { a with publications := a.publications ++ [pub] }

/-- Method `NewspaperAgency::addCustomer` (main.cpp:110-112): stores a copy. -/
def addCustomer (a : Agency) (customer : Customer) : Agency :=
  { a with customers := a.customers ++ [customer] }

/-- Method `NewspaperAgency::addDeliveryPerson` (main.cpp:114-116): stores a copy. -/
def addDeliveryPerson (a : Agency) (dp : DeliveryPerson) : Agency :=
  { a with deliveryPersons := a.deliveryPersons ++ [dp] }

/-- The inner loop of `createDeliverySchedule` (main.cpp:121-126): the
local `schedule` after running over all customers. -/
def buildSchedule (customers : List Customer) : Schedule :=
  customers.foldl
    (fun schedule customer =>
      if !customer.deliveriesStopped then
        schedule ++ [(customer.getAddress, customer.subscriptions)]
      else schedule)
    []

/-- Method `NewspaperAgency::createDeliverySchedule` (main.cpp:118-129). -/
def createDeliverySchedule (a : Agency) : Agency :=
  let m := a.deliveryPersons.foldl
    (fun m dp => mapAssign dp.name (buildSchedule a.customers) m) a.deliverySchedules
  { a with deliverySchedules := m }

/-- The text printed for one schedule entry (main.cpp:135-138). -/
def printDelivery (delivery : String × List Publication) : List Out :=
  [Out.text "Deliver to: ", Out.text delivery.1, Out.text "\nPublications:\n"] ++
    delivery.2.foldl
      (fun out pub =>
        out ++ [Out.text "  ", Out.text pub.name, Out.text " - $",
                Out.num pub.pricePerCopy, Out.text "\n"])
      []

/-- Method `NewspaperAgency::printDailyDelivery` (main.cpp:131-143). -/
def printDailyDelivery (a : Agency) (deliveryPersonName : String) : Agency × List Out :=
  match mapFind deliveryPersonName a.deliverySchedules with
  | some _ =>
    let r := mapIndex deliveryPersonName a.deliverySchedules
    ({ a with deliverySchedules := r.2 },
      [Out.text "Delivery Schedule for ", Out.text deliveryPersonName, Out.text ":\n"] ++
        r.1.foldl (fun out delivery => out ++ printDelivery delivery) [])
  | none =>
    (a, [Out.text "No schedule found for ", Out.text deliveryPersonName, Out.text "\n"])

/-- The local `totalCost` of `printMonthlyBill` (main.cpp:148-151). -/
def totalCost (subscriptions : List Publication) : ℚ :=
  subscriptions.foldl (fun total pub => total + pub.pricePerCopy) 0

/-- The loop of `printMonthlyBill` over the customers (main.cpp:146-157):
the first customer with the given name is billed, then `break`. -/
def printMonthlyBillLoop (customerName : String) : List Customer → List Customer × List Out
  | [] => ([], [])
  | customer :: rest =>
    if customer.name = customerName then
      (customer.setDues (totalCost customer.subscriptions) :: rest,
        [Out.text "Bill for ", Out.text customerName, Out.text ":\n",
         Out.text "Total Cost: $", Out.num (totalCost customer.subscriptions), Out.text "\n"])
    else
      let r := printMonthlyBillLoop customerName rest
      (customer :: r.1, r.2)

/-- Method `NewspaperAgency::printMonthlyBill` (main.cpp:145-158). -/
def printMonthlyBill (a : Agency) (customerName : String) : Agency × List Out :=
  let r := printMonthlyBillLoop customerName a.customers
  ({ a with customers := r.1 }, r.2)

/-- The loop of `printReceipts` over the customers (main.cpp:161-169):
the first customer with the given name pays, then `break`. -/
def printReceiptsLoop (customerName : String) (amount : ℚ) :
    List Customer → List Customer × List Out
  | [] => ([], [])
  | customer :: rest =>
    if customer.name = customerName then
      ((customer.makePayment amount) :: rest,
        [Out.text "Receipt for ", Out.text customerName, Out.text ":\n",
         Out.text "Amount Paid: $", Out.num amount, Out.text "\n",
         Out.text "Remaining Dues: $", Out.num (customer.makePayment amount).getDues,
         Out.text "\n"])
    else
      let r := printReceiptsLoop customerName amount rest
      (customer :: r.1, r.2)

/-- Method `NewspaperAgency::printReceipts` (main.cpp:160-170). -/
def printReceipts (a : Agency) (customerName : String) (amount : ℚ) : Agency × List Out :=
  let r := printReceiptsLoop customerName amount a.customers
  ({ a with customers := r.1 }, r.2)

/-- The local `earnings` of `calculateDeliveryEarnings` for one schedule
(main.cpp:174-179). -/
def scheduleEarnings (schedule : Schedule) : ℚ :=
  schedule.foldl
    (fun earnings delivery =>
      delivery.2.foldl (fun e pub => e + pub.pricePerCopy * (1 / 40)) earnings)
    0

/-- The loop of `calculateDeliveryEarnings` over the delivery persons
(main.cpp:173-182), threading the schedule map because `operator[]` may
insert into it. -/
def calculateDeliveryEarningsLoop :
    List DeliveryPerson → ScheduleMap → List DeliveryPerson × ScheduleMap × List Out
  | [], m => ([], m, [])
  | dp :: rest, m =>
    let r := mapIndex dp.name m
    let dp1 := dp.addEarnings (scheduleEarnings r.1)
    let k := calculateDeliveryEarningsLoop rest r.2
    (dp1 :: k.1, k.2.1,
      [Out.text "Earnings for ", Out.text dp1.name, Out.text ": $",
       Out.num dp1.getEarnings, Out.text "\n"] ++ k.2.2)

/-- Method `NewspaperAgency::calculateDeliveryEarnings` (main.cpp:172-183). -/
def calculateDeliveryEarnings (a : Agency) : Agency × List Out :=
  let k := calculateDeliveryEarningsLoop a.deliveryPersons a.deliverySchedules
  ({ a with deliveryPersons := k.1, deliverySchedules := k.2.1 }, k.2.2)

/-- Method `NewspaperAgency::processCustomerRequests` (main.cpp:185-190): the loop
body is empty. -/
def processCustomerRequests (a : Agency) : Agency :=
  { a with customers := a.customers.map (fun customer => customer) }

/-! ## The example driver `main` -/

/-- The locals of `main` and the agency after line 222 (the second
`createDeliverySchedule`).  `addCustomer` copies its argument, and
`requestStopDelivery` on line 219 is called on the local `customer1`. -/
structure MainState where
  agency : Agency
  customer1 : Customer
  customer2 : Customer
  dp1 : DeliveryPerson
  dp2 : DeliveryPerson
  deriving DecidableEq, Repr

/-- Lines 194-222 of `main`. -/
def mainThroughReschedule : MainState :=
  let agency := Agency.empty
  let agency := addPublication agency ⟨"Newspaper1", 3 / 2⟩
  let agency := addPublication agency ⟨"Magazine1", 2⟩
  let customer1 := Customer.new "Alice" "123 Main St"
  let customer1 := customer1.addSubscription ⟨"Newspaper1", 3 / 2⟩
  let agency := addCustomer agency customer1
  let customer2 := Customer.new "Bob" "456 Elm St"
  let customer2 := customer2.addSubscription ⟨"Magazine1", 2⟩
  let agency := addCustomer agency customer2
  let dp1 := DeliveryPerson.new "John"
  let dp2 := DeliveryPerson.new "Jane"
  let agency := addDeliveryPerson agency dp1
  let agency := addDeliveryPerson agency dp2
  let agency := createDeliverySchedule agency
  let customer1 := customer1.requestStopDelivery "2024-08-01" "2024-08-15"
  let agency := createDeliverySchedule agency
  { agency := agency, customer1 := customer1, customer2 := customer2, dp1 := dp1, dp2 := dp2 }

/-- The whole of `main` (lines 194-232): the final agency and everything
printed. -/
def main : Agency × List Out :=
  let agency := mainThroughReschedule.agency
  let r1 := printDailyDelivery agency "John"
  let r2 := printMonthlyBill r1.1 "Alice"
  let r3 := printReceipts r2.1 "Alice" (3 / 2)
  let r4 := calculateDeliveryEarnings r3.1
  (r4.1, r1.2 ++ r2.2 ++ r3.2 ++ r4.2)

/-! ## Definitions used to state the properties -/

/-- The entries the inner loop of `createDeliverySchedule` produces, stated
without the loop. -/
def activeEntries (customers : List Customer) : Schedule :=
  (customers.filter (fun c => !c.deliveriesStopped)).map
    (fun c => (c.address, c.subscriptions))

/-- Alice: one subscription, deliveries running. -/
def sampleAlice : Customer :=
  (Customer.new "Alice" "123 Main St").addSubscription ⟨"Newspaper1", 3 / 2⟩

/-- Bob: one subscription, deliveries stopped. -/
def sampleBob : Customer :=
  ((Customer.new "Bob" "456 Elm St").addSubscription ⟨"Magazine1", 2⟩).requestStopDelivery
    "2024-08-01" "2024-08-15"

/-- A small agency: Alice (deliveries running), Bob (deliveries stopped),
delivery persons John and Jane, no schedule built yet. -/
def sampleAgency : Agency :=
  { publications := [⟨"Newspaper1", 3 / 2⟩, ⟨"Magazine1", 2⟩],
    customers := [sampleAlice, sampleBob],
    deliveryPersons := [DeliveryPerson.new "John", DeliveryPerson.new "Jane"],
    deliverySchedules := [] }

/-- The text `printReceipts` prints for a name, an amount and the dues left. -/
def receiptText (customerName : String) (amount remaining : ℚ) : List Out :=
  [Out.text "Receipt for ", Out.text customerName, Out.text ":\n",
   Out.text "Amount Paid: $", Out.num amount, Out.text "\n",
   Out.text "Remaining Dues: $", Out.num remaining, Out.text "\n"]

/-- A customer with the subscriptions A (1), B (2), A (3), C (4). -/
def fourSubscriptions : Customer :=
  { name := "Dan", address := "7 Hill Rd",
    subscriptions := [⟨"A", 1⟩, ⟨"B", 2⟩, ⟨"A", 3⟩, ⟨"C", 4⟩],
    dues := 0, hasOutstandingDue := false, deliveriesStopped := false, stopRequests := [] }

/-- The customer states reachable from a freshly constructed customer
through the mutating methods of `Customer`. -/
inductive Customer.Reachable : Customer → Prop where
  | new (n addr : String) : Customer.Reachable (Customer.new n addr)
  | addSubscription {c : Customer} (pub : Publication) :
      Customer.Reachable c → Customer.Reachable (c.addSubscription pub)
  | removeSubscription {c : Customer} (pub : PubRef) :
      Customer.Reachable c → Customer.Reachable (c.removeSubscription pub)
  | setDues {c : Customer} (amount : ℚ) :
      Customer.Reachable c → Customer.Reachable (c.setDues amount)
  | makePayment {c : Customer} (amount : ℚ) :
      Customer.Reachable c → Customer.Reachable (c.makePayment amount)
  | requestStopDelivery {c : Customer} (startDate endDate : String) :
      Customer.Reachable c → Customer.Reachable (c.requestStopDelivery startDate endDate)
  | resumeDeliveries {c : Customer} :
      Customer.Reachable c → Customer.Reachable c.resumeDeliveries

/-- The entry a read through `operator[]` sees under `k`: the stored entry,
or the empty default when the key is missing. -/
def entryOrEmpty (m : ScheduleMap) (k : String) : Schedule :=
  (mapFind k m).getD []

/-- A call of one public member function of `NewspaperAgency`, with its
arguments. -/
inductive Op where
  | addPublication (pub : Publication)
  | addCustomer (customer : Customer)
  | addDeliveryPerson (dp : DeliveryPerson)
  | createDeliverySchedule
  | printDailyDelivery (deliveryPersonName : String)
  | printMonthlyBill (customerName : String)
  | printReceipts (customerName : String) (amount : ℚ)
  | calculateDeliveryEarnings
  | processCustomerRequests
  deriving DecidableEq, Repr

/-- The agency after one call. -/
def Op.apply (a : Agency) : Op → Agency
  | Op.addPublication pub => NewspaperAgency.addPublication a pub
  | Op.addCustomer customer => NewspaperAgency.addCustomer a customer
  | Op.addDeliveryPerson dp => NewspaperAgency.addDeliveryPerson a dp
  | Op.createDeliverySchedule => NewspaperAgency.createDeliverySchedule a
  | Op.printDailyDelivery n => (NewspaperAgency.printDailyDelivery a n).1
  | Op.printMonthlyBill n => (NewspaperAgency.printMonthlyBill a n).1
  | Op.printReceipts n amount => (NewspaperAgency.printReceipts a n amount).1
  | Op.calculateDeliveryEarnings => (NewspaperAgency.calculateDeliveryEarnings a).1
  | Op.processCustomerRequests => NewspaperAgency.processCustomerRequests a

/-- The agency after a sequence of calls, first call first. -/
def runOps (a : Agency) (ops : List Op) : Agency :=
  ops.foldl Op.apply a

/-- The customers passed to `addCustomer` in a sequence of calls, in order. -/
def addedCustomers : List Op → List Customer
  | [] => []
  | Op.addCustomer customer :: rest => customer :: addedCustomers rest
  | _ :: rest => addedCustomers rest

/-- The delivery persons passed to `addDeliveryPerson` in a sequence of
calls, in order. -/
def addedDeliveryPersons : List Op → List DeliveryPerson
  | [] => []
  | Op.addDeliveryPerson dp :: rest => dp :: addedDeliveryPersons rest
  | _ :: rest => addedDeliveryPersons rest

/-- The fields of a customer other than `dues` and `hasOutstandingDue`:
name, address, subscriptions, stop requests and the `deliveriesStopped` flag. -/
def Customer.profile (c : Customer) :
    String × String × List Publication × List (String × String) × Bool :=
  (c.name, c.address, c.subscriptions, c.stopRequests, c.deliveriesStopped)

/-- The text `printDailyDelivery` prints for a name without a schedule. -/
def noScheduleText (deliveryPersonName : String) : List Out :=
  [Out.text "No schedule found for ", Out.text deliveryPersonName, Out.text "\n"]

/-- John is added, the schedule is built, then Jane is added: Jane has no
schedule entry. -/
def lateJane : Agency :=
  addDeliveryPerson
    (createDeliverySchedule (addDeliveryPerson Agency.empty (DeliveryPerson.new "John")))
    (DeliveryPerson.new "Jane")

/-! # Part II: the program over IEEE 754 binary64 -/

namespace Binary64

/-! ## The type `double` -/

/-- An IEEE 754 binary64 value: NaN (one representative for all NaNs), an
infinity with its sign, or a finite value `(-1)^neg * m * 2^e`.  The finite
values the operations below return are in canonical form: `e = -1074` and
`m < 2^52` (the zeros and the subnormal numbers), or `2^52 <= m < 2^53` and
`-1074 <= e <= 971` (the normal numbers). -/
inductive Double where
  | nan
  | inf (neg : Bool)
  | fin (neg : Bool) (m : Nat) (e : Int)
  deriving DecidableEq, Repr

/-- Halving loop behind `Double.ilog2`; the first argument bounds the number
of steps. -/
def Double.ilog2Aux : Nat → Nat → Nat
  | 0, _ => 0
  | fuel + 1, n => if n < 2 then 0 else Double.ilog2Aux fuel (n / 2) + 1

/-- The integer part of the binary logarithm of `n` (0 for `n <= 1`). -/
def Double.ilog2 (n : Nat) : Nat := Double.ilog2Aux n n

/-- Whether `num / den >= 2^k`. -/
def Double.geTwoPow (num den : Nat) (k : Int) : Bool :=
  if 0 ≤ k then decide (den * 2 ^ k.toNat ≤ num) else decide (den ≤ num * 2 ^ (-k).toNat)

/-- Rounding of the rational `num / den` (`den > 0`) with sign `neg` to
binary64, to nearest with ties to even: `l` is the binary exponent of the
value, `e` the exponent of the last kept bit (never below -1074, where the
subnormal numbers lie), `q` the value in units of `2^e` rounded down and `r`
what is left; a result of `2^1024` or more is an infinity. -/
def Double.round (neg : Bool) (num den : Nat) : Double :=
  if num = 0 then Double.fin neg 0 (-1074)
  else
    let k : Int := (Double.ilog2 num : Int) - (Double.ilog2 den : Int)
    let l : Int := if Double.geTwoPow num den k then k else k - 1
    let e : Int := max (l - 52) (-1074)
    let n1 : Nat := if 0 ≤ e then num else num * 2 ^ (-e).toNat
    let d1 : Nat := if 0 ≤ e then den * 2 ^ e.toNat else den
    let q : Nat := n1 / d1
    let r : Nat := n1 % d1
    let q1 : Nat := if d1 < 2 * r ∨ (2 * r = d1 ∧ q % 2 = 1) then q + 1 else q
    let m : Nat := if q1 = 2 ^ 53 then 2 ^ 52 else q1
    let e1 : Int := if q1 = 2 ^ 53 then e + 1 else e
    if 971 < e1 then Double.inf neg else Double.fin neg m e1

/-- Rounding of the nonzero number `x * 2^e` to binary64. -/
def Double.roundScaled (x : Int) (e : Int) : Double :=
  if 0 ≤ e then Double.round (decide (x < 0)) (x.natAbs * 2 ^ e.toNat) 1
  else Double.round (decide (x < 0)) x.natAbs (2 ^ (-e).toNat)

/-- The integer `(-1)^neg * m`. -/
def Double.signed (neg : Bool) (m : Nat) : Int := if neg then -(m : Int) else (m : Int)

/-- The double `+0.0`, also the value of the `int` literal `0` converted to
`double`. -/
def Double.zero : Double := Double.fin false 0 (-1074)

/-- A decimal literal `m * 10^e10` with sign `neg`, correctly rounded. -/
def Double.ofDec (neg : Bool) (m : Nat) (e10 : Int) : Double :=
  if 0 ≤ e10 then Double.round neg (m * 10 ^ e10.toNat) 1
  else Double.round neg m (10 ^ (-e10).toNat)

/-- Unary minus. -/
def Double.neg : Double → Double
  | Double.nan => Double.nan
  | Double.inf s => Double.inf (!s)
  | Double.fin s m e => Double.fin (!s) m e

/-- The operator `+` on `double`: the exact sum, rounded once.  An exact sum
of zero is `-0.0` when both operands are negative (both `-0.0`) and `+0.0`
otherwise. -/
def Double.add : Double → Double → Double
  | Double.nan, _ => Double.nan
  | _, Double.nan => Double.nan
  | Double.inf s, Double.inf t => if s = t then Double.inf s else Double.nan
  | Double.inf s, Double.fin _ _ _ => Double.inf s
  | Double.fin _ _ _, Double.inf t => Double.inf t
  | Double.fin s m e, Double.fin t n f =>
    let e0 : Int := min e f
    let x : Int :=
      Double.signed s m * 2 ^ (e - e0).toNat + Double.signed t n * 2 ^ (f - e0).toNat
    if x = 0 then Double.fin (s && t) 0 (-1074) else Double.roundScaled x e0

/-- The operator `-` on `double`. -/
def Double.sub (x y : Double) : Double := Double.add x (Double.neg y)

/-- The operator `*` on `double`: the exact product, rounded once. -/
def Double.mul : Double → Double → Double
  | Double.nan, _ => Double.nan
  | _, Double.nan => Double.nan
  | Double.inf s, Double.inf t => Double.inf (xor s t)
  | Double.inf s, Double.fin t n _ => if n = 0 then Double.nan else Double.inf (xor s t)
  | Double.fin s m _, Double.inf t => if m = 0 then Double.nan else Double.inf (xor s t)
  | Double.fin s m e, Double.fin t n f =>
    if m * n = 0 then Double.fin (xor s t) 0 (-1074)
    else Double.roundScaled (Double.signed (xor s t) (m * n)) (e + f)

/-- The operator `<` on `double`; false when an operand is NaN. -/
def Double.lt : Double → Double → Bool
  | Double.nan, _ => false
  | _, Double.nan => false
  | Double.inf s, Double.inf t => s && !t
  | Double.inf s, Double.fin _ _ _ => s
  | Double.fin _ _ _, Double.inf t => !t
  | Double.fin s m e, Double.fin t n f =>
    decide (Double.signed s m * 2 ^ (e - min e f).toNat <
      Double.signed t n * 2 ^ (f - min e f).toNat)

/-- The operator `<=` on `double`; false when an operand is NaN. -/
def Double.le : Double → Double → Bool
  | Double.nan, _ => false
  | _, Double.nan => false
  | Double.inf s, Double.inf t => s || !t
  | Double.inf s, Double.fin _ _ _ => s
  | Double.fin _ _ _, Double.inf t => !t
  | Double.fin s m e, Double.fin t n f =>
    decide (Double.signed s m * 2 ^ (e - min e f).toNat ≤
      Double.signed t n * 2 ^ (f - min e f).toNat)

/-- The operator `==` on `double`; false when an operand is NaN, true for
`+0.0 == -0.0`. -/
def Double.eq : Double → Double → Bool
  | Double.nan, _ => false
  | _, Double.nan => false
  | Double.inf s, Double.inf t => decide (s = t)
  | Double.inf _, Double.fin _ _ _ => false
  | Double.fin _ _ _, Double.inf _ => false
  | Double.fin s m e, Double.fin t n f =>
    decide (Double.signed s m * 2 ^ (e - min e f).toNat =
      Double.signed t n * 2 ^ (f - min e f).toNat)

/-- The function `std::max(a, b)`, which is `(a < b) ? b : a`. -/
def Double.max (a b : Double) : Double := if Double.lt a b then b else a

/-- The exact value of a finite double as a rational number (0 for NaN and
the infinities, which have none). -/
def Double.toRat : Double → ℚ
  | Double.nan => 0
  | Double.inf _ => 0
  | Double.fin s m e => (if s then -1 else 1) * (m : ℚ) * (2 : ℚ) ^ e

/-- The literal `0.025` of `calculateDeliveryEarnings`. -/
def c0025 : Double := Double.ofDec false 25 (-3)

end Binary64

/-! ## The data model and the program over binary64 (Part II) -/

namespace Binary64

/-- The class `Publication` (main.cpp:10-16), the price a binary64 value. -/
structure Publication where
  name : String
  pricePerCopy : Double
  deriving DecidableEq, Repr

/-- The class `Customer` (main.cpp:18-28), the dues a binary64 value. -/
structure Customer where
  name : String
  address : String
  subscriptions : List Publication
  dues : Double
  hasOutstandingDue : Bool
  deliveriesStopped : Bool
  stopRequests : List (String × String)
  deriving DecidableEq, Repr

/-- The class `DeliveryPerson` (main.cpp:81-86), the earnings a binary64
value. -/
structure DeliveryPerson where
  name : String
  totalEarnings : Double
  deriving DecidableEq, Repr

/-- One schedule: `vector<pair<string, vector<Publication>>>`. -/
abbrev Schedule := List (String × List Publication)

/-- The map `map<string, vector<pair<string, vector<Publication>>>>`,
kept as an association list sorted by key. -/
abbrev ScheduleMap := List (String × Schedule)

/-- Data members of `class NewspaperAgency` (main.cpp:98-103). -/
structure Agency where
  publications : List Publication
  customers : List Customer
  deliveryPersons : List DeliveryPerson
  deliverySchedules : ScheduleMap
  deriving DecidableEq, Repr

/-- A token streamed to `std::cout`: a string (`endl` is the text "\n")
or a `double`. -/
inductive Out where
  | text (s : String)
  | num (d : Double)
  deriving DecidableEq, Repr

/-- The lookup `m.find(k)`: the entry stored under `k`, or `none` for `m.end()`. -/
def mapFind (k : String) : ScheduleMap → Option Schedule
  | [] => none
  | (k', v) :: rest => if k' = k then some v else mapFind k rest

/-- The assignment `m[k] = v`: replaces the entry under `k`, or inserts it
at its place in key order. -/
def mapAssign (k : String) (v : Schedule) : ScheduleMap → ScheduleMap
  | [] => [(k, v)]
  | (k', v') :: rest =>
    if k < k' then (k, v) :: (k', v') :: rest
    else if k' = k then (k, v) :: rest
    else (k', v') :: mapAssign k v rest

/-- The access `m[k]` read as an rvalue: returns the entry under `k`; on a
missing key a default (empty) entry is inserted first.  Returns the entry
and the map after the access. -/
def mapIndex (k : String) (m : ScheduleMap) : Schedule × ScheduleMap :=
  match mapFind k m with
  | some v => (v, m)
  | none => ([], mapAssign k [] m)

/-- Constructor `Customer(n, addr)` (main.cpp:28): `dues(0.0)`. -/
def Customer.new (n addr : String) : Customer :=
  { name := n, address := addr, subscriptions := [], dues := Double.zero,
    hasOutstandingDue := false, deliveriesStopped := false, stopRequests := [] }

/-- Method `Customer::addSubscription` (main.cpp:30-32). -/
def Customer.addSubscription (c : Customer) (pub : Publication) : Customer :=
  { c with subscriptions := c.subscriptions ++ [pub] }

/-- What the parameter `const Publication& pub` of `removeSubscription` is
bound to: a publication object outside the subscriptions vector, or the
element `subscriptions[k]` of the vector itself (`k` below its size). -/
inductive PubRef where
  | object (pub : Publication)
  | element (k : Nat)
  deriving DecidableEq, Repr

/-- The value of `pub.name` while the vector holds `v`. -/
def PubRef.name (v : List Publication) : PubRef → String
  | PubRef.object pub => pub.name
  | PubRef.element k =>
    match v[k]? with
    | some p => p.name
    | none => ""

/-- Method `Customer::removeSubscription` (main.cpp:34-39): `remove_if` with
a lambda that reads `pub.name` through its captured reference, then
`erase(it, end)`. -/
def Customer.removeSubscription (c : Customer) (pub : PubRef) : Customer :=
  let r := removeIf (fun v p => decide (p.name = pub.name v)) c.subscriptions
  { c with subscriptions := r.1.take r.2 }

/-- Method `Customer::setDues` (main.cpp:41-44): `dues > 0` compares with the
`int` 0 converted to `double`. -/
def Customer.setDues (c : Customer) (amount : Double) : Customer :=
  let c1 := { c with dues := amount }
  { c1 with hasOutstandingDue := Double.lt Double.zero c1.dues }

/-- Method `Customer::makePayment` (main.cpp:46-52): `dues -= amount` is one
rounded subtraction; when `dues <= 0` is false (also when `dues` is NaN) the
branch is skipped. -/
def Customer.makePayment (c : Customer) (amount : Double) : Customer :=
  let c1 := { c with dues := Double.sub c.dues amount }
  if Double.le c1.dues Double.zero then
    { c1 with dues := Double.zero, hasOutstandingDue := false }
  else c1

/-- Method `Customer::getDues` (main.cpp:54-56). -/
def Customer.getDues (c : Customer) : Double := c.dues

/-- Method `Customer::getAddress` (main.cpp:58-60). -/
def Customer.getAddress (c : Customer) : String := c.address

/-- Method `Customer::requestStopDelivery` (main.cpp:62-65). -/
def Customer.requestStopDelivery (c : Customer) (startDate endDate : String) : Customer :=
  { c with stopRequests := c.stopRequests ++ [(startDate, endDate)],
           deliveriesStopped := true }

/-- Method `Customer::resumeDeliveries` (main.cpp:76-78). -/
def Customer.resumeDeliveries (c : Customer) : Customer :=
  { c with deliveriesStopped := false }

/-- Constructor `DeliveryPerson(n)` (main.cpp:86): `totalEarnings(0.0)`. -/
def DeliveryPerson.new (n : String) : DeliveryPerson :=
  { name := n, totalEarnings := Double.zero }

/-- Method `DeliveryPerson::addEarnings` (main.cpp:88-90): one rounded
addition. -/
def DeliveryPerson.addEarnings (dp : DeliveryPerson) (amount : Double) : DeliveryPerson :=
  { dp with totalEarnings := Double.add dp.totalEarnings amount }

/-- Method `DeliveryPerson::getEarnings` (main.cpp:92-94). -/
def DeliveryPerson.getEarnings (dp : DeliveryPerson) : Double := dp.totalEarnings

/-- The inner loop of `createDeliverySchedule` (main.cpp:121-126): the
local `schedule` after running over all customers. -/
def buildSchedule (customers : List Customer) : Schedule :=
  customers.foldl
    (fun schedule customer =>
      if !customer.deliveriesStopped then
        schedule ++ [(customer.getAddress, customer.subscriptions)]
      else schedule)
    []

/-- Method `NewspaperAgency::createDeliverySchedule` (main.cpp:118-129). -/
def createDeliverySchedule (a : Agency) : Agency :=
  let m := a.deliveryPersons.foldl
    (fun m dp => mapAssign dp.name (buildSchedule a.customers) m) a.deliverySchedules
  { a with deliverySchedules := m }

/-- The local `totalCost` of `printMonthlyBill` (main.cpp:148-151): starts at
0 and takes one rounded addition per subscription, in order. -/
def totalCost (subscriptions : List Publication) : Double :=
  subscriptions.foldl (fun total pub => Double.add total pub.pricePerCopy) Double.zero

/-- The loop of `printMonthlyBill` over the customers (main.cpp:146-157):
the first customer with the given name is billed, then `break`. -/
def printMonthlyBillLoop (customerName : String) : List Customer → List Customer × List Out
  | [] => ([], [])
  | customer :: rest =>
    if customer.name = customerName then
      (customer.setDues (totalCost customer.subscriptions) :: rest,
        [Out.text "Bill for ", Out.text customerName, Out.text ":\n",
         Out.text "Total Cost: $", Out.num (totalCost customer.subscriptions), Out.text "\n"])
    else
      let r := printMonthlyBillLoop customerName rest
      (customer :: r.1, r.2)

/-- Method `NewspaperAgency::printMonthlyBill` (main.cpp:145-158). -/
def printMonthlyBill (a : Agency) (customerName : String) : Agency × List Out :=
  let r := printMonthlyBillLoop customerName a.customers
  ({ a with customers := r.1 }, r.2)

/-- The loop of `printReceipts` over the customers (main.cpp:161-169):
the first customer with the given name pays, then `break`. -/
def printReceiptsLoop (customerName : String) (amount : Double) :
    List Customer → List Customer × List Out
  | [] => ([], [])
  | customer :: rest =>
    if customer.name = customerName then
      ((customer.makePayment amount) :: rest,
        [Out.text "Receipt for ", Out.text customerName, Out.text ":\n",
         Out.text "Amount Paid: $", Out.num amount, Out.text "\n",
         Out.text "Remaining Dues: $", Out.num (customer.makePayment amount).getDues,
         Out.text "\n"])
    else
      let r := printReceiptsLoop customerName amount rest
      (customer :: r.1, r.2)

/-- Method `NewspaperAgency::printReceipts` (main.cpp:160-170). -/
def printReceipts (a : Agency) (customerName : String) (amount : Double) :
    Agency × List Out :=
  let r := printReceiptsLoop customerName amount a.customers
  ({ a with customers := r.1 }, r.2)

/-- The local `earnings` of `calculateDeliveryEarnings` for one schedule
(main.cpp:174-179): starts at 0.0; `earnings += pub.pricePerCopy * 0.025` is
one rounded multiplication followed by one rounded addition. -/
def scheduleEarnings (schedule : Schedule) : Double :=
  schedule.foldl
    (fun earnings delivery =>
      delivery.2.foldl (fun e pub => Double.add e (Double.mul pub.pricePerCopy c0025)) earnings)
    Double.zero

/-- The loop of `calculateDeliveryEarnings` over the delivery persons
(main.cpp:173-182), threading the schedule map because `operator[]` may
insert into it. -/
def calculateDeliveryEarningsLoop :
    List DeliveryPerson → ScheduleMap → List DeliveryPerson × ScheduleMap × List Out
  | [], m => ([], m, [])
  | dp :: rest, m =>
    let r := mapIndex dp.name m
    let dp1 := dp.addEarnings (scheduleEarnings r.1)
    let k := calculateDeliveryEarningsLoop rest r.2
    (dp1 :: k.1, k.2.1,
      [Out.text "Earnings for ", Out.text dp1.name, Out.text ": $",
       Out.num dp1.getEarnings, Out.text "\n"] ++ k.2.2)

/-- Method `NewspaperAgency::calculateDeliveryEarnings` (main.cpp:172-183). -/
def calculateDeliveryEarnings (a : Agency) : Agency × List Out :=
  let k := calculateDeliveryEarningsLoop a.deliveryPersons a.deliverySchedules
  ({ a with deliveryPersons := k.1, deliverySchedules := k.2.1 }, k.2.2)

/-! ### Definitions used to state the properties of Part II -/

/-- The double sum of a list of doubles as the program accumulates it: from
0, left to right, one rounded addition per element. -/
def doubleSum (xs : List Double) : Double := xs.foldl Double.add Double.zero

/-- The entries the inner loop of `createDeliverySchedule` produces, stated
without the loop. -/
def activeEntries (customers : List Customer) : Schedule :=
  (customers.filter (fun c => !c.deliveriesStopped)).map
    (fun c => (c.address, c.subscriptions))

/-- The prices of all subscriptions of all customers whose
`deliveriesStopped` flag is false, customer by customer, in order. -/
def activePrices (customers : List Customer) : List Double :=
  ((customers.filter (fun c => !c.deliveriesStopped)).map
    (fun c => c.subscriptions.map (fun pub => pub.pricePerCopy))).flatten

/-- The earnings accumulated over a list of prices: from 0, left to right,
`e := e + price * 0.025` with the product and the sum each rounded. -/
def earningsOfPrices (prices : List Double) : Double :=
  prices.foldl (fun e price => Double.add e (Double.mul price c0025)) Double.zero

/-- The entry a read through `operator[]` sees under `k`: the stored entry,
or the empty default when the key is missing. -/
def entryOrEmpty (m : ScheduleMap) (k : String) : Schedule :=
  (mapFind k m).getD []

/-- The text `printMonthlyBill` prints for a customer name and a total. -/
def billText (customerName : String) (total : Double) : List Out :=
  [Out.text "Bill for ", Out.text customerName, Out.text ":\n",
   Out.text "Total Cost: $", Out.num total, Out.text "\n"]

/-- The double nearest to a decimal `m * 10^e10`, written as a literal. -/
def dec (m : Nat) (e10 : Int) : Double := Double.ofDec false m e10

/-- A customer without stop request and with the given subscription prices,
named "Alice". -/
def aliceWith (prices : List Double) : Customer :=
  { name := "Alice", address := "123 Main St",
    subscriptions := prices.map (fun price => { name := "P", pricePerCopy := price }),
    dues := Double.zero, hasOutstandingDue := false, deliveriesStopped := false,
    stopRequests := [] }

/-- An agency whose only customer is `aliceWith prices`, with the given
delivery persons and no schedule built yet. -/
def agencyOf (prices : List Double) (dps : List DeliveryPerson) : Agency :=
  { publications := [], customers := [aliceWith prices], deliveryPersons := dps,
    deliverySchedules := [] }

/-- An agency with the customers Bob (fresh, no subscription) and
`aliceWith prices`, in this order. -/
def bobAndAlice (prices : List Double) : Agency :=
  { publications := [], customers := [Customer.new "Bob" "456 Elm St", aliceWith prices],
    deliveryPersons := [], deliverySchedules := [] }

/-- An agency in which John has earned 0.05 so far and has a schedule of one
address with one publication at 2.00. -/
def johnAtFiveCents : Agency :=
  { publications := [], customers := [],
    deliveryPersons := [{ name := "John", totalEarnings := dec 5 (-2) }],
    deliverySchedules := [("John", [("123 Main St", [{ name := "P", pricePerCopy := dec 2 0 }])])] }

/-- An agency with two customers named Alice: the first has no
subscription, the second subscribes to one publication at 1.50. -/
def twoAlices : Agency :=
  { publications := [],
    customers := [Customer.new "Alice" "1 First St", aliceWith [dec 15 (-1)]],
    deliveryPersons := [], deliverySchedules := [] }

end Binary64

/-! ## Lemmas on the map operations -/

theorem mapFind_mapAssign_self (k : String) (v : Schedule) (m : ScheduleMap) :
    mapFind k (mapAssign k v m) = some v := by
  induction m with
  | nil => simp [mapAssign, mapFind]
  | cons e rest ih =>
    obtain ⟨k', v'⟩ := e
    unfold mapAssign
    split_ifs with h1 h2
    · simp [mapFind]
    · simp [mapFind]
    · simp [mapFind, h2, ih]

theorem mapFind_mapAssign_ne (k k2 : String) (v : Schedule) (m : ScheduleMap) (h : k ≠ k2) :
    mapFind k2 (mapAssign k v m) = mapFind k2 m := by
  induction m with
  | nil => simp [mapAssign, mapFind, h]
  | cons e rest ih =>
    obtain ⟨k', v'⟩ := e
    unfold mapAssign
    split_ifs with h1 h2
    · simp [mapFind, h]
    · subst h2
      simp [mapFind, h]
    · by_cases h3 : k' = k2
      · simp [mapFind, h3]
      · simp [mapFind, h3, ih]

/-- After the outer loop of `createDeliverySchedule`, a key is bound to the
new schedule if it names one of the delivery persons, and keeps its old
binding otherwise. -/
theorem mapFind_foldl_mapAssign (v : Schedule) (dps : List DeliveryPerson) :
    ∀ (m : ScheduleMap) (k : String),
      mapFind k (dps.foldl (fun m dp => mapAssign dp.name v m) m) =
        if k ∈ dps.map (fun dp => dp.name) then some v else mapFind k m := by
  induction dps with
  | nil => intro m k; simp
  | cons dp rest ih =>
    intro m k
    rw [List.foldl_cons, ih]
    by_cases hk : k ∈ rest.map (fun dp => dp.name)
    · simp only [List.map_cons, List.mem_cons, hk, or_true, if_true]
    · by_cases hd : dp.name = k
      · subst hd
        simp [hk, mapFind_mapAssign_self]
      · have hd2 : ¬ k = dp.name := fun h => hd h.symm
        simp only [List.map_cons, List.mem_cons, hk, hd2, or_self, if_false]
        exact mapFind_mapAssign_ne _ _ _ _ hd

/-! ## Lemmas on the schedule loop -/

theorem buildSchedule_foldl (customers : List Customer) :
    ∀ acc : Schedule,
      customers.foldl
        (fun schedule customer =>
          if !customer.deliveriesStopped then
            schedule ++ [(customer.getAddress, customer.subscriptions)]
          else schedule)
        acc = acc ++ activeEntries customers := by
  induction customers with
  | nil => intro acc; simp [activeEntries]
  | cons c rest ih =>
    intro acc
    rw [List.foldl_cons, ih]
    cases hc : c.deliveriesStopped <;>
      simp [activeEntries, hc, Customer.getAddress]

theorem buildSchedule_eq (customers : List Customer) :
    buildSchedule customers = activeEntries customers := by
  unfold buildSchedule
  rw [buildSchedule_foldl]
  simp

/-- After `createDeliverySchedule` every delivery person's name is bound to
the entries of the customers whose deliveries are running. -/
theorem mapFind_createDeliverySchedule (a : Agency) (dp : DeliveryPerson)
    (hdp : dp ∈ a.deliveryPersons) :
    mapFind dp.name (createDeliverySchedule a).deliverySchedules =
      some (activeEntries a.customers) := by
  have hmem : dp.name ∈ a.deliveryPersons.map (fun dp => dp.name) :=
    List.mem_map_of_mem _ hdp
  simp only [createDeliverySchedule]
  rw [mapFind_foldl_mapAssign, if_pos hmem, buildSchedule_eq]

/-! ## C1: schedule generation -/

/-- C1: after `createDeliverySchedule`, the schedule stored under the name
of every delivery person is one and the same list: the (address,
subscriptions) pairs of exactly the customers whose `deliveriesStopped` flag
is false, in customer insertion order; customers and delivery persons are
not touched. -/
theorem createDeliverySchedule_entries (a : Agency) :
    (∀ dp ∈ a.deliveryPersons,
      mapFind dp.name (createDeliverySchedule a).deliverySchedules =
        some ((a.customers.filter (fun c => !c.deliveriesStopped)).map
          (fun c => (c.address, c.subscriptions)))) ∧
    (createDeliverySchedule a).customers = a.customers ∧
    (createDeliverySchedule a).deliveryPersons = a.deliveryPersons := by
  refine ⟨?_, rfl, rfl⟩
  intro dp hdp
  rw [mapFind_createDeliverySchedule a dp hdp]
  rfl

/-- C1 at `sampleAgency`: John's schedule holds Alice's entry only. -/
theorem createDeliverySchedule_entries_witness :
    DeliveryPerson.new "John" ∈ sampleAgency.deliveryPersons ∧
    mapFind "John" (createDeliverySchedule sampleAgency).deliverySchedules =
      some [("123 Main St", [⟨"Newspaper1", 3 / 2⟩])] :=
  ⟨by simp [sampleAgency],
   by
    have h := (createDeliverySchedule_entries sampleAgency).1 (DeliveryPerson.new "John")
      (by simp [sampleAgency])
    simpa [sampleAgency, sampleAlice, sampleBob, DeliveryPerson.new, Customer.new,
      Customer.addSubscription, Customer.requestStopDelivery] using h⟩

/-! ## C2: the example driver -/

theorem str_Jane_lt_John : "Jane" < "John" := by
  rw [String.lt_iff_toList_lt]; decide

theorem str_John_not_lt_Jane : ¬ "John" < "Jane" := by
  rw [String.lt_iff_toList_lt]; decide

/-- C2 (evaluation of the driver): after line 222 of `main` the local
`customer1` has `deliveriesStopped = true`, but the copy stored in the agency
does not, and the rebuilt schedules of John and of Jane both still contain
the entry for "123 Main St". -/
theorem main_reschedule_still_delivers_to_alice :
    mainThroughReschedule.customer1.deliveriesStopped = true ∧
    mainThroughReschedule.agency.customers.map (fun c => (c.name, c.deliveriesStopped)) =
      [("Alice", false), ("Bob", false)] ∧
    mapFind "John" mainThroughReschedule.agency.deliverySchedules =
      some [("123 Main St", [⟨"Newspaper1", 3 / 2⟩]), ("456 Elm St", [⟨"Magazine1", 2⟩])] ∧
    mapFind "Jane" mainThroughReschedule.agency.deliverySchedules =
      some [("123 Main St", [⟨"Newspaper1", 3 / 2⟩]), ("456 Elm St", [⟨"Magazine1", 2⟩])] := by
  refine ⟨?_, ?_, ?_, ?_⟩ <;>
    simp [mainThroughReschedule, createDeliverySchedule, buildSchedule, addCustomer,
      addPublication, addDeliveryPerson, Agency.empty, Customer.new, Customer.addSubscription,
      Customer.requestStopDelivery, Customer.getAddress, DeliveryPerson.new, mapAssign,
      mapFind, str_Jane_lt_John, str_John_not_lt_Jane]

/-! ## C4, C5: payments and the outstanding-due flag -/

/-- C4 (evaluation): a fresh customer that "pays" `-5` ends with dues `5`
while `hasOutstandingDue` is still `false`: the flag is false although the
new dues are not `0`. -/
theorem makePayment_negative_leaves_flag_clear :
    ((Customer.new "Alice" "123 Main St").makePayment (-5)).dues = 5 ∧
    ((Customer.new "Alice" "123 Main St").makePayment (-5)).hasOutstandingDue = false := by
  constructor <;> norm_num [Customer.makePayment, Customer.new]

/-- C5 (evaluation): the state `Customer("Bob","456 Elm St")` followed by
`makePayment(-3/2)` is reachable through the methods of `Customer`, and in it
`hasOutstandingDue` differs from `dues > 0`. -/
theorem reachable_customer_breaks_flag_invariant :
    Customer.Reachable ((Customer.new "Bob" "456 Elm St").makePayment (-3 / 2)) ∧
    ((Customer.new "Bob" "456 Elm St").makePayment (-3 / 2)).hasOutstandingDue ≠
      decide (((Customer.new "Bob" "456 Elm St").makePayment (-3 / 2)).dues > 0) := by
  refine ⟨Customer.Reachable.makePayment _ (Customer.Reachable.new _ _), ?_⟩
  norm_num [Customer.makePayment, Customer.new]

/-! ## C6: `removeSubscription` -/

theorem findIfIdx_le_length {α : Type} (pred : α → Bool) (l : List α) :
    findIfIdx pred l ≤ l.length := by
  induction l with
  | nil => simp [findIfIdx]
  | cons x rest ih =>
    unfold findIfIdx
    split_ifs <;> simp [ih]

/-- Everything before the first match, followed by the non-matching
elements after it, is the list without its matching elements. -/
theorem take_findIfIdx_append_filter {α : Type} (pred : α → Bool) (l : List α) :
    l.take (findIfIdx pred l) ++ (l.drop (findIfIdx pred l + 1)).filter (fun x => !pred x) =
      l.filter (fun x => !pred x) := by
  induction l with
  | nil => simp [findIfIdx]
  | cons x rest ih =>
    by_cases hx : pred x = true
    · simp [findIfIdx, hx]
    · have hx2 : pred x = false := by simpa using hx
      simp [findIfIdx, hx2, ih]

/-- Loop invariant of `remove_if` for a predicate `p` that does not read the
vector, in closed form: the part of the vector below the returned iterator
is the part below `result` at entry followed by the non-matching elements
from the read position on. -/
theorem removeIfLoop_take {α : Type} (p : α → Bool) :
    ∀ (n : Nat) (v : List α) (result i : Nat), i + n = v.length → result < i →
      (removeIfLoop (fun _ => p) n v result i).1.take
          (removeIfLoop (fun _ => p) n v result i).2 =
        v.take result ++ (v.drop i).filter (fun x => !p x) := by
  intro n
  induction n with
  | zero =>
    intro v result i hlen _
    have hi : v.length ≤ i := by omega
    simp [removeIfLoop, List.drop_eq_nil_of_le hi]
  | succ n ih =>
    intro v result i hlen hri
    have hi : i < v.length := by omega
    have hr : result < v.length := by omega
    have hd : v.drop i = v[i] :: v.drop (i + 1) := List.drop_eq_getElem_cons hi
    unfold removeIfLoop
    rw [List.getElem?_eq_getElem hi]
    simp only
    by_cases hx : p v[i] = true
    · simp only [hx, Bool.not_true, Bool.false_eq_true, if_false]
      rw [ih v result (i + 1) (by omega) (by omega), hd, List.filter_cons]
      simp [hx]
    · have hx2 : p v[i] = false := by simpa using hx
      simp only [hx2, Bool.not_false, if_true]
      rw [ih (v.set result v[i]) (result + 1) (i + 1)
        (by rw [List.length_set]; omega) (by omega)]
      rw [List.drop_set_of_lt _ _ (by omega), List.take_succ, hd, List.filter_cons,
        List.set_take, List.set_eq_of_length_le (by simp)]
      simp [hr, hx2]

theorem removeIf_take {α : Type} (p : α → Bool) (v : List α) :
    (removeIf (fun _ => p) v).1.take (removeIf (fun _ => p) v).2 =
      v.filter (fun x => !p x) := by
  unfold removeIf
  by_cases h : findIfIdx p v = v.length
  · have h2 := take_findIfIdx_append_filter p v
    rw [h, List.drop_eq_nil_of_le (Nat.le_succ _)] at h2
    simpa [h] using h2
  · have hle := findIfIdx_le_length p v
    simp only [h, if_false]
    rw [removeIfLoop_take p _ v _ _ (by omega) (by omega)]
    exact take_findIfIdx_append_filter p v

/-- When `pub` is an object outside the vector, `removeSubscription(pub)`
leaves exactly the prior subscriptions whose name differs from `pub.name`,
in their original order. -/
theorem removeSubscription_object (c : Customer) (pub : Publication) :
    (c.removeSubscription (PubRef.object pub)).subscriptions =
      c.subscriptions.filter (fun p => decide (p.name ≠ pub.name)) := by
  simp only [Customer.removeSubscription, PubRef.name]
  rw [removeIf_take (fun p : Publication => decide (p.name = pub.name))]
  congr 1
  funext p
  simp

/-- C6 (evaluation): on the subscriptions A (1), B (2), A (3), C (4) the call
`c.removeSubscription(c.subscriptions[0])` leaves B (2), A (3), C (4): the
second entry named "A" survives, because the first shift overwrites
`subscriptions[0]`, to which `pub` refers, with B.  The same call with a
separate object named "A" leaves B (2), C (4). -/
theorem removeSubscription_of_own_element_keeps_namesake :
    (fourSubscriptions.removeSubscription (PubRef.element 0)).subscriptions =
      [⟨"B", 2⟩, ⟨"A", 3⟩, ⟨"C", 4⟩] ∧
    (fourSubscriptions.removeSubscription (PubRef.object ⟨"A", 1⟩)).subscriptions =
      [⟨"B", 2⟩, ⟨"C", 4⟩] := by
  constructor <;>
    simp [fourSubscriptions, Customer.removeSubscription, removeIf, removeIfLoop, findIfIdx,
      PubRef.name]

/-! ## C8: receipts -/

theorem printReceiptsLoop_first (name : String) (amount : ℚ) (c : Customer)
    (post : List Customer) (hc : c.name = name) :
    ∀ pre : List Customer, (∀ x ∈ pre, x.name ≠ name) →
      printReceiptsLoop name amount (pre ++ c :: post) =
        (pre ++ c.makePayment amount :: post,
          receiptText name amount (c.makePayment amount).dues) := by
  intro pre
  induction pre with
  | nil => intro _; simp [printReceiptsLoop, hc, receiptText, Customer.getDues]
  | cons x rest ih =>
    intro hpre
    have hx : x.name ≠ name := hpre x (List.mem_cons_self _ _)
    have hrest : ∀ y ∈ rest, y.name ≠ name := fun y hy => hpre y (List.mem_cons_of_mem _ hy)
    simp [printReceiptsLoop, hx, ih hrest]

theorem printReceiptsLoop_none (name : String) (amount : ℚ) :
    ∀ cs : List Customer, (∀ x ∈ cs, x.name ≠ name) →
      printReceiptsLoop name amount cs = (cs, []) := by
  intro cs
  induction cs with
  | nil => intro _; simp [printReceiptsLoop]
  | cons x rest ih =>
    intro hcs
    have hx : x.name ≠ name := hcs x (List.mem_cons_self _ _)
    have hrest : ∀ y ∈ rest, y.name ≠ name := fun y hy => hcs y (List.mem_cons_of_mem _ hy)
    simp [printReceiptsLoop, hx, ih hrest]

/-- C8: `printReceipts(name, amount)` applies `makePayment(amount)` to the
first customer named `name` and to no other; publications, delivery persons
and the schedule map stay as they were, and the receipt shows the amount and
the dues left.  With no customer of that name the state is unchanged and
nothing is printed. -/
theorem printReceipts_effect (a : Agency) (name : String) (amount : ℚ) :
    (∀ (pre : List Customer) (c : Customer) (post : List Customer),
      a.customers = pre ++ c :: post → (∀ x ∈ pre, x.name ≠ name) → c.name = name →
      printReceipts a name amount =
        ({ a with customers := pre ++ c.makePayment amount :: post },
          receiptText name amount (c.makePayment amount).dues)) ∧
    ((∀ x ∈ a.customers, x.name ≠ name) → printReceipts a name amount = (a, [])) := by
  constructor
  · intro pre c post hcs hpre hc
    unfold printReceipts
    rw [hcs, printReceiptsLoop_first name amount c post hc pre hpre]
  · intro hnone
    unfold printReceipts
    rw [printReceiptsLoop_none name amount a.customers hnone]

theorem sampleAgency_customers : sampleAgency.customers = [sampleAlice] ++ sampleBob :: [] := rfl

/-- C8 at `sampleAgency` with Bob's dues set to 2 beforehand: a receipt of 1/2
for "Bob" leaves dues 3/2 with Alice untouched; a receipt for "Carol" does
nothing. -/
theorem printReceipts_effect_witness :
    (printReceipts { sampleAgency with customers := [sampleAlice] ++ sampleBob.setDues 2 :: [] }
        "Bob" (1 / 2)).1.customers.map (fun c => (c.name, c.dues, c.hasOutstandingDue)) =
      [("Alice", 0, false), ("Bob", 3 / 2, true)] ∧
    printReceipts sampleAgency "Carol" (1 / 2) = (sampleAgency, []) := by
  constructor
  · rw [(printReceipts_effect
      { sampleAgency with customers := [sampleAlice] ++ sampleBob.setDues 2 :: [] }
      "Bob" (1 / 2)).1 [sampleAlice] (sampleBob.setDues 2) [] rfl
      (by simp [sampleAlice, Customer.new, Customer.addSubscription])
      (by simp [sampleBob, Customer.new, Customer.addSubscription, Customer.requestStopDelivery,
        Customer.setDues])]
    norm_num [sampleAlice, sampleBob, Customer.new, Customer.addSubscription,
      Customer.requestStopDelivery, Customer.setDues, Customer.makePayment]
  · exact (printReceipts_effect sampleAgency "Carol" (1 / 2)).2
      (by simp [sampleAgency, sampleAlice, sampleBob, Customer.new, Customer.addSubscription,
        Customer.requestStopDelivery])

/-! ## The loop of `calculateDeliveryEarnings` -/

theorem entryOrEmpty_mapAssign_empty (k k2 : String) (m : ScheduleMap)
    (h : mapFind k m = none) :
    entryOrEmpty (mapAssign k [] m) k2 = entryOrEmpty m k2 := by
  unfold entryOrEmpty
  by_cases hk : k = k2
  · subst hk
    rw [mapFind_mapAssign_self, h]
    rfl
  · rw [mapFind_mapAssign_ne k k2 [] m hk]

/-- The loop of `calculateDeliveryEarnings` in closed form: every delivery
person gains the earnings of the entry read under its name (empty when the
key is missing), and the map afterwards reads the same under every key. -/
theorem calculateDeliveryEarningsLoop_spec :
    ∀ (dps : List DeliveryPerson) (m : ScheduleMap),
      (calculateDeliveryEarningsLoop dps m).1 =
        dps.map (fun dp => dp.addEarnings (scheduleEarnings (entryOrEmpty m dp.name))) ∧
      ∀ k : String,
        entryOrEmpty (calculateDeliveryEarningsLoop dps m).2.1 k = entryOrEmpty m k := by
  intro dps
  induction dps with
  | nil => intro m; simp [calculateDeliveryEarningsLoop]
  | cons dp rest ih =>
    intro m
    cases hfind : mapFind dp.name m with
    | some v =>
      have h := ih m
      refine ⟨?_, ?_⟩
      · simp [calculateDeliveryEarningsLoop, mapIndex, hfind, h.1, entryOrEmpty]
      · intro k
        simp only [calculateDeliveryEarningsLoop, mapIndex, hfind]
        exact h.2 k
    | none =>
      have h := ih (mapAssign dp.name [] m)
      have hsame := fun k2 => entryOrEmpty_mapAssign_empty dp.name k2 m hfind
      refine ⟨?_, ?_⟩
      · simp only [calculateDeliveryEarningsLoop, mapIndex, hfind, List.map_cons]
        rw [h.1]
        simp only [hsame]
        simp [entryOrEmpty, hfind]
      · intro k
        simp only [calculateDeliveryEarningsLoop, mapIndex, hfind]
        rw [h.2 k, hsame k]

/-! ## C12: `printDailyDelivery` for an unknown name -/

/-- The map after the loop of `calculateDeliveryEarnings`: every delivery
person's name is bound (to its old entry, or to the empty default), every
other key is as before. -/
theorem mapFind_calculateDeliveryEarningsLoop :
    ∀ (dps : List DeliveryPerson) (m : ScheduleMap) (k : String),
      mapFind k (calculateDeliveryEarningsLoop dps m).2.1 =
        if k ∈ dps.map (fun dp => dp.name) then some (entryOrEmpty m k) else mapFind k m := by
  intro dps
  induction dps with
  | nil => intro m k; simp [calculateDeliveryEarningsLoop]
  | cons dp rest ih =>
    intro m k
    cases hfind : mapFind dp.name m with
    | some v =>
      simp only [calculateDeliveryEarningsLoop, mapIndex, hfind]
      rw [ih m k]
      by_cases hk : k ∈ rest.map (fun dp => dp.name)
      · simp [hk]
      · by_cases hd : k = dp.name
        · subst hd
          simp [hk, entryOrEmpty, hfind]
        · simp [hk, hd]
    | none =>
      simp only [calculateDeliveryEarningsLoop, mapIndex, hfind]
      rw [ih (mapAssign dp.name [] m) k, entryOrEmpty_mapAssign_empty dp.name k m hfind]
      by_cases hk : k ∈ rest.map (fun dp => dp.name)
      · simp [hk]
      · by_cases hd : k = dp.name
        · subst hd
          simp [hk, entryOrEmpty, hfind, mapFind_mapAssign_self]
        · have hd2 : dp.name ≠ k := fun h => hd h.symm
          simp [hk, hd, mapFind_mapAssign_ne dp.name k [] m hd2]

theorem calculateDeliveryEarnings_names (a : Agency) :
    (calculateDeliveryEarnings a).1.deliveryPersons.map (fun dp => dp.name) =
      a.deliveryPersons.map (fun dp => dp.name) := by
  simp only [calculateDeliveryEarnings]
  rw [(calculateDeliveryEarningsLoop_spec a.deliveryPersons a.deliverySchedules).1,
    List.map_map]
  rfl

theorem printDailyDelivery_state (a : Agency) (n : String) :
    (printDailyDelivery a n).1 = a := by
  unfold printDailyDelivery
  cases h : mapFind n a.deliverySchedules with
  | some v => simp [mapIndex, h]
  | none => rfl

theorem processCustomerRequests_eq (a : Agency) : processCustomerRequests a = a := by
  simp [processCustomerRequests]

/-- One call keeps the delivery persons' names, except that
`addDeliveryPerson` appends one. -/
theorem opApply_names (a : Agency) (op : Op) :
    (op.apply a).deliveryPersons.map (fun dp => dp.name) =
      a.deliveryPersons.map (fun dp => dp.name) ++
        (addedDeliveryPersons [op]).map (fun dp => dp.name) := by
  cases op <;>
    simp [Op.apply, addedDeliveryPersons, addPublication, addCustomer, addDeliveryPerson,
      createDeliverySchedule, printDailyDelivery_state, printMonthlyBill, printReceipts,
      calculateDeliveryEarnings_names, processCustomerRequests_eq]

theorem addedDeliveryPersons_cons (op : Op) (ops : List Op) :
    addedDeliveryPersons (op :: ops) = addedDeliveryPersons [op] ++ addedDeliveryPersons ops := by
  cases op <;> simp [addedDeliveryPersons]

theorem runOps_names (ops : List Op) :
    ∀ a : Agency, (runOps a ops).deliveryPersons.map (fun dp => dp.name) =
      a.deliveryPersons.map (fun dp => dp.name) ++
        (addedDeliveryPersons ops).map (fun dp => dp.name) := by
  induction ops with
  | nil => intro a; simp [runOps, addedDeliveryPersons]
  | cons op rest ih =>
    intro a
    have h := ih (op.apply a)
    simp only [runOps, List.foldl_cons] at h ⊢
    rw [h, opApply_names, addedDeliveryPersons_cons op rest]
    simp

/-- Every key of the schedule map names a delivery person: one call keeps
this true. -/
theorem opApply_keys (a : Agency) (op : Op)
    (h : ∀ k, k ∉ a.deliveryPersons.map (fun dp => dp.name) →
      mapFind k a.deliverySchedules = none) :
    ∀ k, k ∉ (op.apply a).deliveryPersons.map (fun dp => dp.name) →
      mapFind k (op.apply a).deliverySchedules = none := by
  intro k hk
  cases op with
  | addPublication pub => exact h k hk
  | addCustomer customer => exact h k hk
  | addDeliveryPerson dp =>
    apply h k
    intro hmem
    apply hk
    simp only [Op.apply, addDeliveryPerson, List.map_append, List.mem_append]
    exact Or.inl hmem
  | createDeliverySchedule =>
    have hk2 : k ∉ a.deliveryPersons.map (fun dp => dp.name) := hk
    simp only [Op.apply, createDeliverySchedule]
    rw [mapFind_foldl_mapAssign, if_neg hk2]
    exact h k hk2
  | printDailyDelivery n =>
    simp only [Op.apply, printDailyDelivery_state] at hk ⊢
    exact h k hk
  | printMonthlyBill n => exact h k hk
  | printReceipts n amount => exact h k hk
  | calculateDeliveryEarnings =>
    have hk2 : k ∉ a.deliveryPersons.map (fun dp => dp.name) := by
      rw [← calculateDeliveryEarnings_names a]
      exact hk
    simp only [Op.apply, calculateDeliveryEarnings]
    rw [mapFind_calculateDeliveryEarningsLoop, if_neg hk2]
    exact h k hk2
  | processCustomerRequests => exact h k hk

theorem runOps_keys (ops : List Op) :
    ∀ a : Agency,
      (∀ k, k ∉ a.deliveryPersons.map (fun dp => dp.name) →
        mapFind k a.deliverySchedules = none) →
      ∀ k, k ∉ (runOps a ops).deliveryPersons.map (fun dp => dp.name) →
        mapFind k (runOps a ops).deliverySchedules = none := by
  induction ops with
  | nil => intro a h; exact h
  | cons op rest ih =>
    intro a h
    exact ih (op.apply a) (opApply_keys a op h)

/-- C12: in every agency state reached from the empty agency by public
calls (`calculateDeliveryEarnings` included), for a name that no added
delivery person bears, `printDailyDelivery(name)` prints exactly
"No schedule found for <name>" and leaves the agency state as it is. -/
theorem printDailyDelivery_unknown_name (ops : List Op) (name : String)
    (hname : name ∉ (addedDeliveryPersons ops).map (fun dp => dp.name)) :
    printDailyDelivery (runOps Agency.empty ops) name =
      (runOps Agency.empty ops, noScheduleText name) := by
  have hnames := runOps_names ops Agency.empty
  have hk : name ∉ (runOps Agency.empty ops).deliveryPersons.map (fun dp => dp.name) := by
    rw [hnames]
    simpa [Agency.empty] using hname
  have hnone := runOps_keys ops Agency.empty (fun k _ => rfl) name hk
  unfold printDailyDelivery
  rw [hnone]
  rfl

/-- C12 at a run that adds John, builds the schedule and computes the
earnings: "Zed" has no schedule and the state is unchanged. -/
theorem printDailyDelivery_unknown_name_witness :
    "Zed" ∉ (addedDeliveryPersons
      [Op.addDeliveryPerson (DeliveryPerson.new "John"), Op.createDeliverySchedule,
       Op.calculateDeliveryEarnings]).map (fun dp => dp.name) ∧
    printDailyDelivery
      (runOps Agency.empty
        [Op.addDeliveryPerson (DeliveryPerson.new "John"), Op.createDeliverySchedule,
         Op.calculateDeliveryEarnings]) "Zed" =
      (runOps Agency.empty
        [Op.addDeliveryPerson (DeliveryPerson.new "John"), Op.createDeliverySchedule,
         Op.calculateDeliveryEarnings], noScheduleText "Zed") :=
  ⟨by simp [addedDeliveryPersons, DeliveryPerson.new],
   printDailyDelivery_unknown_name _ "Zed" (by simp [addedDeliveryPersons, DeliveryPerson.new])⟩

/-! ## C13: `totalEarnings` under `addEarnings` -/

/-- C15 (evaluation): in `lateJane` the map holds John's entry only and
`printDailyDelivery("Jane")` prints "No schedule found for Jane"; after
`calculateDeliveryEarnings` the map has gained the key "Jane" with an empty
entry, and `printDailyDelivery("Jane")` prints the header
"Delivery Schedule for Jane:" instead. -/
theorem calculateDeliveryEarnings_inserts_missing_key :
    lateJane.deliverySchedules = [("John", [])] ∧
    (printDailyDelivery lateJane "Jane").2 = noScheduleText "Jane" ∧
    (calculateDeliveryEarnings lateJane).1.deliverySchedules = [("Jane", []), ("John", [])] ∧
    (printDailyDelivery (calculateDeliveryEarnings lateJane).1 "Jane").2 =
      [Out.text "Delivery Schedule for ", Out.text "Jane", Out.text ":\n"] := by
  refine ⟨?_, ?_, ?_, ?_⟩
  all_goals
    simp [lateJane, calculateDeliveryEarnings, calculateDeliveryEarningsLoop, printDailyDelivery,
      noScheduleText, mapIndex, createDeliverySchedule, buildSchedule, addDeliveryPerson,
      Agency.empty, DeliveryPerson.new, DeliveryPerson.addEarnings, mapAssign, mapFind,
      str_Jane_lt_John, str_John_not_lt_Jane]
  decide

/-! ## C16: rebuilding the schedule twice -/

/-- After `m[k] = v` the entry `(k, v)` sits behind keys that are all
smaller than `k`. -/
theorem mapAssign_position (k : String) (v : Schedule) (m : ScheduleMap) :
    ∃ pre post, mapAssign k v m = pre ++ (k, v) :: post ∧ ∀ e ∈ pre, e.1 < k := by
  induction m with
  | nil => exact ⟨[], [], by simp [mapAssign], by simp⟩
  | cons e rest ih =>
    obtain ⟨k', v'⟩ := e
    unfold mapAssign
    split_ifs with h1 h2
    · exact ⟨[], (k', v') :: rest, by simp, by simp⟩
    · exact ⟨[], rest, by simp, by simp⟩
    · obtain ⟨pre, post, hm, hpre⟩ := ih
      refine ⟨(k', v') :: pre, post, by simp [hm], ?_⟩
      intro e he
      rcases List.mem_cons.mp he with rfl | he
      · exact lt_of_le_of_ne (not_lt.mp h1) h2
      · exact hpre e he

/-- An assignment of the same value under any key keeps the entry `(k, v)`
behind smaller keys only. -/
theorem mapAssign_keeps_position (k j : String) (v : Schedule) (post : ScheduleMap) :
    ∀ pre : ScheduleMap, (∀ e ∈ pre, e.1 < k) →
      ∃ pre2 post2, mapAssign j v (pre ++ (k, v) :: post) = pre2 ++ (k, v) :: post2 ∧
        ∀ e ∈ pre2, e.1 < k := by
  intro pre
  induction pre with
  | nil =>
    intro _
    simp only [List.nil_append]
    unfold mapAssign
    split_ifs with h1 h2
    · exact ⟨[(j, v)], post, by simp, by simpa using h1⟩
    · subst h2
      exact ⟨[], post, by simp, by simp⟩
    · exact ⟨[], mapAssign j v post, by simp, by simp⟩
  | cons e pre1 ih =>
    intro hpre
    obtain ⟨k', v'⟩ := e
    have hk' : k' < k := hpre (k', v') (List.mem_cons_self _ _)
    have hpre1 : ∀ e ∈ pre1, e.1 < k := fun e he => hpre e (List.mem_cons_of_mem _ he)
    simp only [List.cons_append]
    unfold mapAssign
    split_ifs with h1 h2
    · refine ⟨(j, v) :: (k', v') :: pre1, post, by simp, ?_⟩
      intro e he
      rcases List.mem_cons.mp he with rfl | he
      · exact lt_trans h1 hk'
      · exact hpre e he
    · refine ⟨(j, v) :: pre1, post, by simp, ?_⟩
      intro e he
      rcases List.mem_cons.mp he with rfl | he
      · exact h2 ▸ hk'
      · exact hpre1 e he
    · obtain ⟨pre2, post2, hm, hpre2⟩ := ih hpre1
      refine ⟨(k', v') :: pre2, post2, by simp [hm], ?_⟩
      intro e he
      rcases List.mem_cons.mp he with rfl | he
      · exact hk'
      · exact hpre2 e he

/-- Assigning `v` under `k` again changes nothing when `(k, v)` sits behind
smaller keys only. -/
theorem mapAssign_fixed (k : String) (v : Schedule) (post : ScheduleMap) :
    ∀ pre : ScheduleMap, (∀ e ∈ pre, e.1 < k) →
      mapAssign k v (pre ++ (k, v) :: post) = pre ++ (k, v) :: post := by
  intro pre
  induction pre with
  | nil => intro _; simp [mapAssign]
  | cons e pre1 ih =>
    intro hpre
    obtain ⟨k', v'⟩ := e
    have hk' : k' < k := hpre (k', v') (List.mem_cons_self _ _)
    have hpre1 : ∀ e ∈ pre1, e.1 < k := fun e he => hpre e (List.mem_cons_of_mem _ he)
    simp only [List.cons_append]
    unfold mapAssign
    rw [if_neg (lt_asymm hk'), if_neg (ne_of_lt hk'), ih hpre1]

theorem foldl_mapAssign_keeps_position (k : String) (v : Schedule) (dps : List DeliveryPerson) :
    ∀ m : ScheduleMap,
      (∃ pre post, m = pre ++ (k, v) :: post ∧ ∀ e ∈ pre, e.1 < k) →
      ∃ pre post, dps.foldl (fun m dp => mapAssign dp.name v m) m = pre ++ (k, v) :: post ∧
        ∀ e ∈ pre, e.1 < k := by
  induction dps with
  | nil => intro m h; exact h
  | cons dp rest ih =>
    intro m h
    obtain ⟨pre, post, hm, hpre⟩ := h
    rw [List.foldl_cons, hm]
    exact ih _ (mapAssign_keeps_position k dp.name v post pre hpre)

theorem foldl_mapAssign_positions (v : Schedule) (dps : List DeliveryPerson) :
    ∀ m : ScheduleMap, ∀ dp ∈ dps,
      ∃ pre post, dps.foldl (fun m dp => mapAssign dp.name v m) m = pre ++ (dp.name, v) :: post ∧
        ∀ e ∈ pre, e.1 < dp.name := by
  induction dps with
  | nil => intro m dp hdp; simp at hdp
  | cons d rest ih =>
    intro m dp hdp
    rw [List.foldl_cons]
    rcases List.mem_cons.mp hdp with rfl | hdp
    · exact foldl_mapAssign_keeps_position dp.name v rest _ (mapAssign_position dp.name v m)
    · exact ih _ dp hdp

theorem foldl_mapAssign_fixed (v : Schedule) (m : ScheduleMap) :
    ∀ dps : List DeliveryPerson,
      (∀ dp ∈ dps, ∃ pre post, m = pre ++ (dp.name, v) :: post ∧ ∀ e ∈ pre, e.1 < dp.name) →
      dps.foldl (fun m dp => mapAssign dp.name v m) m = m := by
  intro dps
  induction dps with
  | nil => intro _; rfl
  | cons d rest ih =>
    intro h
    obtain ⟨pre, post, hm, hpre⟩ := h d (List.mem_cons_self _ _)
    have hfix : mapAssign d.name v m = m := by
      rw [hm]
      exact mapAssign_fixed d.name v post pre hpre
    rw [List.foldl_cons, hfix]
    exact ih (fun dp hdp => h dp (List.mem_cons_of_mem _ hdp))

/-- C16: `createDeliverySchedule` stores, under the name of every current
delivery person, an entry that is a function of the current customers alone:
two agencies with the same customers get the same entry, the list of the
(address, subscriptions) pairs of the customers whose deliveries are
running, whatever their publications, delivery persons and previous schedule
maps are; keys that name no delivery person keep their binding; and a second
`createDeliverySchedule` right after the first leaves the agency, schedule
map included, exactly as the first left it. -/
theorem createDeliverySchedule_rebuild :
    (∀ (a b : Agency) (dpa dpb : DeliveryPerson), a.customers = b.customers →
      dpa ∈ a.deliveryPersons → dpb ∈ b.deliveryPersons →
      mapFind dpa.name (createDeliverySchedule a).deliverySchedules =
        some ((a.customers.filter (fun c => !c.deliveriesStopped)).map
          (fun c => (c.address, c.subscriptions))) ∧
      mapFind dpb.name (createDeliverySchedule b).deliverySchedules =
        mapFind dpa.name (createDeliverySchedule a).deliverySchedules) ∧
    (∀ (a : Agency) (k : String), k ∉ a.deliveryPersons.map (fun dp => dp.name) →
      mapFind k (createDeliverySchedule a).deliverySchedules = mapFind k a.deliverySchedules) ∧
    (∀ a : Agency, createDeliverySchedule (createDeliverySchedule a) =
      createDeliverySchedule a) := by
  refine ⟨?_, ?_, ?_⟩
  · intro a b dpa dpb hcs ha hb
    rw [mapFind_createDeliverySchedule a dpa ha, mapFind_createDeliverySchedule b dpb hb, hcs]
    exact ⟨rfl, rfl⟩
  · intro a k hk
    simp only [createDeliverySchedule]
    rw [mapFind_foldl_mapAssign, if_neg hk]
  · intro a
    have hfix := foldl_mapAssign_fixed (buildSchedule a.customers)
      (a.deliveryPersons.foldl
        (fun m dp => mapAssign dp.name (buildSchedule a.customers) m) a.deliverySchedules)
      a.deliveryPersons
      (fun dp hdp =>
        foldl_mapAssign_positions (buildSchedule a.customers) a.deliveryPersons
          a.deliverySchedules dp hdp)
    simp only [createDeliverySchedule]
    rw [hfix]

/-- C16 at `sampleAgency` and at an agency with the same customers but no
publications, the single delivery person Zoe and a stale entry under "Zoe":
the entry rebuilt for Zoe is the one rebuilt for John, Alice's entry. -/
theorem createDeliverySchedule_rebuild_witness :
    DeliveryPerson.new "John" ∈ sampleAgency.deliveryPersons ∧
    mapFind "John" (createDeliverySchedule sampleAgency).deliverySchedules =
      some [("123 Main St", [⟨"Newspaper1", 3 / 2⟩])] ∧
    mapFind "Zoe"
        (createDeliverySchedule
          { publications := [], customers := sampleAgency.customers,
            deliveryPersons := [DeliveryPerson.new "Zoe"],
            deliverySchedules := [("Zoe", [("9 Old Rd", [])])] }).deliverySchedules =
      mapFind "John" (createDeliverySchedule sampleAgency).deliverySchedules := by
  have h := createDeliverySchedule_rebuild.1 sampleAgency
    { publications := [], customers := sampleAgency.customers,
      deliveryPersons := [DeliveryPerson.new "Zoe"],
      deliverySchedules := [("Zoe", [("9 Old Rd", [])])] }
    (DeliveryPerson.new "John") (DeliveryPerson.new "Zoe") rfl
    (by simp [sampleAgency]) (by simp)
  refine ⟨by simp [sampleAgency], ?_, h.2⟩
  have h1 := h.1
  simpa [sampleAgency, sampleAlice, sampleBob, DeliveryPerson.new, Customer.new,
    Customer.addSubscription, Customer.requestStopDelivery] using h1

/-! ## C17: stop requests and resuming -/

/-- C17: after `requestStopDelivery(s, e)` the flag `deliveriesStopped` is
true, and `isDeliveryStopped(d)` is true exactly when `s <= d <= e` in the
order of strings or `d` lies within an interval stored before; a following
`resumeDeliveries()` clears the flag and leaves `stopRequests`, hence
`isDeliveryStopped` at every date, as they were. -/
theorem requestStopDelivery_then_resume (c : Customer) (s e d : String) :
    (c.requestStopDelivery s e).deliveriesStopped = true ∧
    ((c.requestStopDelivery s e).isDeliveryStopped d = true ↔
      ((s ≤ d ∧ d ≤ e) ∨ ∃ r ∈ c.stopRequests, r.1 ≤ d ∧ d ≤ r.2)) ∧
    (c.requestStopDelivery s e).resumeDeliveries.deliveriesStopped = false ∧
    (c.requestStopDelivery s e).resumeDeliveries.stopRequests =
      (c.requestStopDelivery s e).stopRequests ∧
    ∀ d2 : String, (c.requestStopDelivery s e).resumeDeliveries.isDeliveryStopped d2 =
      (c.requestStopDelivery s e).isDeliveryStopped d2 := by
  refine ⟨rfl, ?_, rfl, rfl, fun _ => rfl⟩
  simp only [Customer.isDeliveryStopped, Customer.requestStopDelivery, List.any_append,
    List.any_cons, List.any_nil, Bool.or_false, Bool.or_eq_true, Bool.and_eq_true,
    decide_eq_true_eq, List.any_eq_true]
  constructor
  · rintro (⟨r, hr, h⟩ | h)
    · exact Or.inr ⟨r, hr, h⟩
    · exact Or.inl h
  · rintro (h | ⟨r, hr, h⟩)
    · exact Or.inr h
    · exact Or.inl ⟨r, hr, h⟩

/-- C17 at Alice with the stop request 2024-08-01 to 2024-08-15: the date
2024-08-10 lies within it, so `isDeliveryStopped` is true. -/
theorem requestStopDelivery_then_resume_witness :
    (sampleAlice.requestStopDelivery "2024-08-01" "2024-08-15").isDeliveryStopped
      "2024-08-10" = true :=
  (requestStopDelivery_then_resume sampleAlice "2024-08-01" "2024-08-15" "2024-08-10").2.1.mpr
    (Or.inl ⟨by rw [String.le_iff_toList_le]; decide, by rw [String.le_iff_toList_le]; decide⟩)

/-! ## C18: what the agency never changes in a stored customer -/

theorem setDues_profile (c : Customer) (amount : ℚ) : (c.setDues amount).profile = c.profile :=
  rfl

theorem makePayment_profile (c : Customer) (amount : ℚ) :
    (c.makePayment amount).profile = c.profile := by
  unfold Customer.makePayment
  by_cases h : c.dues - amount ≤ 0
  · simp [h, Customer.profile]
  · simp [h, Customer.profile]

theorem printMonthlyBillLoop_profile (name : String) :
    ∀ cs : List Customer,
      (printMonthlyBillLoop name cs).1.map Customer.profile = cs.map Customer.profile := by
  intro cs
  induction cs with
  | nil => simp [printMonthlyBillLoop]
  | cons x rest ih =>
    by_cases hx : x.name = name
    · simp [printMonthlyBillLoop, hx, setDues_profile]
    · simp [printMonthlyBillLoop, hx, ih]

theorem printReceiptsLoop_profile (name : String) (amount : ℚ) :
    ∀ cs : List Customer,
      (printReceiptsLoop name amount cs).1.map Customer.profile = cs.map Customer.profile := by
  intro cs
  induction cs with
  | nil => simp [printReceiptsLoop]
  | cons x rest ih =>
    by_cases hx : x.name = name
    · simp [printReceiptsLoop, hx, makePayment_profile]
    · simp [printReceiptsLoop, hx, ih]

theorem opApply_profiles (a : Agency) (op : Op) :
    (op.apply a).customers.map Customer.profile =
      a.customers.map Customer.profile ++ (addedCustomers [op]).map Customer.profile := by
  cases op with
  | addPublication pub => simp [Op.apply, addPublication, addedCustomers]
  | addCustomer customer => simp [Op.apply, addCustomer, addedCustomers]
  | addDeliveryPerson dp => simp [Op.apply, addDeliveryPerson, addedCustomers]
  | createDeliverySchedule => simp [Op.apply, createDeliverySchedule, addedCustomers]
  | printDailyDelivery n => simp [Op.apply, printDailyDelivery_state, addedCustomers]
  | printMonthlyBill n =>
    simp [Op.apply, printMonthlyBill, printMonthlyBillLoop_profile, addedCustomers]
  | printReceipts n amount =>
    simp [Op.apply, printReceipts, printReceiptsLoop_profile, addedCustomers]
  | calculateDeliveryEarnings => simp [Op.apply, calculateDeliveryEarnings, addedCustomers]
  | processCustomerRequests => simp [Op.apply, processCustomerRequests_eq, addedCustomers]

theorem addedCustomers_cons (op : Op) (ops : List Op) :
    addedCustomers (op :: ops) = addedCustomers [op] ++ addedCustomers ops := by
  cases op <;> simp [addedCustomers]

theorem runOps_profiles (ops : List Op) :
    ∀ a : Agency, (runOps a ops).customers.map Customer.profile =
      a.customers.map Customer.profile ++ (addedCustomers ops).map Customer.profile := by
  induction ops with
  | nil => intro a; simp [runOps, addedCustomers]
  | cons op rest ih =>
    intro a
    have h := ih (op.apply a)
    simp only [runOps, List.foldl_cons] at h ⊢
    rw [h, opApply_profiles, addedCustomers_cons op rest]
    simp

/-- The schedule entries of a customer list are a function of the
customers' profiles. -/
theorem activeEntries_of_profiles (cs : List Customer) :
    activeEntries cs =
      ((cs.map Customer.profile).filter (fun p => !p.2.2.2.2)).map (fun p => (p.2.1, p.2.2.1)) := by
  induction cs with
  | nil => rfl
  | cons c rest ih =>
    simp only [activeEntries] at ih ⊢
    cases hc : c.deliveriesStopped <;>
      simp [List.filter_cons, Customer.profile, hc, ih]

/-- C18: each public call of the agency leaves name, address,
subscriptions, stop requests and the `deliveriesStopped` flag of every stored
customer as they were (`addCustomer` only appends its argument); so after
any sequence of calls on the empty agency these fields are those of the
values passed to `addCustomer`, and so are the entries a schedule rebuild
produces. -/
theorem stored_customer_profile_fixed :
    (∀ (a : Agency) (op : Op),
      (op.apply a).customers.map Customer.profile =
        a.customers.map Customer.profile ++ (addedCustomers [op]).map Customer.profile) ∧
    (∀ ops : List Op,
      (runOps Agency.empty ops).customers.map Customer.profile =
        (addedCustomers ops).map Customer.profile) ∧
    (∀ ops : List Op,
      buildSchedule (runOps Agency.empty ops).customers = activeEntries (addedCustomers ops)) := by
  have hrun : ∀ ops : List Op,
      (runOps Agency.empty ops).customers.map Customer.profile =
        (addedCustomers ops).map Customer.profile := by
    intro ops
    rw [runOps_profiles ops Agency.empty]
    simp [Agency.empty]
  refine ⟨opApply_profiles, hrun, ?_⟩
  intro ops
  rw [buildSchedule_eq, activeEntries_of_profiles, hrun ops, ← activeEntries_of_profiles]

/-! # Part II: properties that depend on binary64 arithmetic -/

namespace Binary64

/-! ## Comparisons with zero and the sign of sums -/

theorem signed_scaled_nonneg (s : Bool) (m k : Nat) :
    0 ≤ Double.signed s m * 2 ^ k ↔ (s = false ∨ m = 0) := by
  have hp : (0 : Int) < 2 ^ k := by positivity
  cases s with
  | false =>
    simp only [Double.signed, Bool.false_eq_true, if_false, true_or, iff_true]
    positivity
  | true =>
    simp only [Double.signed, if_true, Bool.true_eq_false, false_or]
    constructor
    · intro h
      have h2 : 0 ≤ -(m : Int) := by
        by_contra hc
        have : -(m : Int) * 2 ^ k < 0 := mul_neg_of_neg_of_pos (not_le.mp hc) hp
        omega
      omega
    · intro h
      simp [h]

theorem signed_scaled_pos (s : Bool) (m k : Nat) :
    0 < Double.signed s m * 2 ^ k ↔ (s = false ∧ 0 < m) := by
  have hp : (0 : Int) < 2 ^ k := by positivity
  cases s with
  | false =>
    simp only [Double.signed, Bool.false_eq_true, if_false, true_and]
    constructor
    · intro h
      by_contra hc
      have hm : m = 0 := by omega
      simp [hm] at h
    · intro h
      have : (0 : Int) < m := by exact_mod_cast h
      positivity
  | true =>
    simp only [Double.signed, if_true, Bool.true_eq_false, false_and, iff_false, not_lt]
    have h2 : -(m : Int) ≤ 0 := by omega
    exact mul_nonpos_of_nonpos_of_nonneg h2 (le_of_lt hp)

theorem signed_scaled_nonpos (s : Bool) (m k : Nat) :
    Double.signed s m * 2 ^ k ≤ 0 ↔ (s = true ∨ m = 0) := by
  have h := signed_scaled_pos s m k
  rw [← not_lt, h]
  cases s <;> simp

theorem le_zero_fin (s : Bool) (m : Nat) (e : Int) :
    Double.le Double.zero (Double.fin s m e) = true ↔ (s = false ∨ m = 0) := by
  simp only [Double.le, Double.zero, decide_eq_true_eq]
  rw [show Double.signed false 0 = 0 from rfl, zero_mul]
  exact signed_scaled_nonneg s m _

theorem lt_zero_fin (s : Bool) (m : Nat) (e : Int) :
    Double.lt Double.zero (Double.fin s m e) = true ↔ (s = false ∧ 0 < m) := by
  simp only [Double.lt, Double.zero, decide_eq_true_eq]
  rw [show Double.signed false 0 = 0 from rfl, zero_mul]
  exact signed_scaled_pos s m _

theorem le_fin_zero (s : Bool) (m : Nat) (e : Int) :
    Double.le (Double.fin s m e) Double.zero = true ↔ (s = true ∨ m = 0) := by
  simp only [Double.le, Double.zero, decide_eq_true_eq]
  rw [show Double.signed false 0 = 0 from rfl, zero_mul]
  exact signed_scaled_nonpos s m _

/-- For a value that is not NaN, `x <= 0` false means `0 < x`. -/
theorem lt_zero_of_not_le_zero (x : Double) (hx : x ≠ Double.nan)
    (h : Double.le x Double.zero = false) : Double.lt Double.zero x = true := by
  cases x with
  | nan => exact absurd rfl hx
  | inf s =>
    simp only [Double.le, Double.zero] at h
    simp [Double.lt, Double.zero, h]
  | fin s m e =>
    rw [lt_zero_fin]
    have h2 : ¬ (s = true ∨ m = 0) := by
      rw [← le_fin_zero s m e, h]
      simp
    constructor
    · cases s
      · rfl
      · exact absurd (Or.inl rfl) h2
    · exact Nat.pos_of_ne_zero (fun hm => h2 (Or.inr hm))

/-- What is positive is not negative: `0 < x` gives `0 <= x`. -/
theorem le_zero_of_lt_zero (x : Double) (h : Double.lt Double.zero x = true) :
    Double.le Double.zero x = true := by
  cases x with
  | nan => simp [Double.lt, Double.zero] at h
  | inf s =>
    simp only [Double.lt, Double.zero] at h
    simpa [Double.le, Double.zero] using h
  | fin s m e =>
    rw [le_zero_fin]
    exact Or.inl ((lt_zero_fin s m e).mp h).1

/-- For `x <= 0`, `0 < x` is false. -/
theorem not_lt_zero_of_le_zero (x : Double) (h : Double.le x Double.zero = true) :
    Double.lt Double.zero x = false := by
  cases x with
  | nan => simp [Double.le] at h
  | inf s =>
    simp only [Double.le, Double.zero] at h
    simp [Double.lt, Double.zero, h]
  | fin s m e =>
    have h2 := (le_fin_zero s m e).mp h
    cases hlt : Double.lt Double.zero (Double.fin s m e) with
    | false => rfl
    | true =>
      have h3 := (lt_zero_fin s m e).mp hlt
      rcases h2 with h2 | h2
      · rw [h3.1] at h2
        exact absurd h2 (by simp)
      · omega

/-- A finite value minus itself is `+0.0`. -/
theorem sub_self_fin (s : Bool) (m : Nat) (e : Int) :
    Double.sub (Double.fin s m e) (Double.fin s m e) = Double.zero := by
  have hx : Double.signed s m * 2 ^ (e - min e e).toNat +
      Double.signed (!s) m * 2 ^ (e - min e e).toNat = 0 := by
    cases s <;> simp [Double.signed]
  simp only [Double.sub, Double.neg, Double.add, hx, if_true, Double.zero]
  cases s <;> rfl

theorem inf_or_fin_of_ite (neg : Bool) (c : Prop) [Decidable c] (m : Nat) (e : Int) :
    (if c then Double.inf neg else Double.fin neg m e) = Double.inf neg ∨
      ∃ m2 e2, (if c then Double.inf neg else Double.fin neg m e) = Double.fin neg m2 e2 := by
  by_cases h : c
  · exact Or.inl (by simp [h])
  · exact Or.inr ⟨m, e, by simp [h]⟩

/-- The rounding keeps the sign it is given. -/
theorem round_sign (neg : Bool) (num den : Nat) :
    Double.round neg num den = Double.inf neg ∨
      ∃ m e, Double.round neg num den = Double.fin neg m e := by
  unfold Double.round
  by_cases h0 : num = 0
  · exact Or.inr ⟨0, -1074, by simp [h0]⟩
  · simp only [h0, if_false]
    exact inf_or_fin_of_ite neg _ _ _

theorem roundScaled_pos_nonneg (x : Int) (e : Int) (hx : 0 < x) :
    Double.le Double.zero (Double.roundScaled x e) = true := by
  have hneg : decide (x < 0) = false := by
    simp only [decide_eq_false_iff_not, not_lt]
    exact le_of_lt hx
  have hshape : ∀ num den, Double.le Double.zero (Double.round false num den) = true := by
    intro num den
    rcases round_sign false num den with h | ⟨m, e2, h⟩
    · rw [h]; rfl
    · rw [h, le_zero_fin]; exact Or.inl rfl
  unfold Double.roundScaled
  rw [hneg]
  split_ifs
  · exact hshape _ _
  · exact hshape _ _

/-- The sum of two doubles that are `>= 0` is `>= 0` (and so not NaN). -/
theorem add_nonneg_b64 (x y : Double) (hx : Double.le Double.zero x = true)
    (hy : Double.le Double.zero y = true) : Double.le Double.zero (Double.add x y) = true := by
  cases x with
  | nan => simp [Double.le, Double.zero] at hx
  | inf s =>
    have hs : s = false := by simpa [Double.le, Double.zero] using hx
    subst hs
    cases y with
    | nan => simp [Double.le, Double.zero] at hy
    | inf t =>
      have ht : t = false := by simpa [Double.le, Double.zero] using hy
      subst ht
      rfl
    | fin t n f => rfl
  | fin s m e =>
    cases y with
    | nan => simp [Double.le, Double.zero] at hy
    | inf t =>
      have ht : t = false := by simpa [Double.le, Double.zero] using hy
      subst ht
      rfl
    | fin t n f =>
      have h1 := (signed_scaled_nonneg s m (e - min e f).toNat).mpr ((le_zero_fin s m e).mp hx)
      have h2 := (signed_scaled_nonneg t n (f - min e f).toNat).mpr ((le_zero_fin t n f).mp hy)
      simp only [Double.add]
      split_ifs with h0
      · rw [le_zero_fin]; exact Or.inr rfl
      · apply roundScaled_pos_nonneg
        omega

/-! ## C3: the dues after a payment -/

/-- C3 as stated fails.  With dues 2 and the payment NaN the dues become
NaN, which equals nothing (not `max(0, 2 - NaN)` either) and is not `>= 0`.
And the difference is the rounded one: with dues 1e16 and the payment 1 the
dues stay 1e16, while 1e16 - 1 is 9999999999999999. -/
theorem makePayment_nan_and_rounding :
    (((Customer.new "Alice" "123 Main St").setDues (dec 2 0)).makePayment Double.nan).dues =
      Double.nan ∧
    Double.eq
      (((Customer.new "Alice" "123 Main St").setDues (dec 2 0)).makePayment Double.nan).dues
      (Double.max Double.zero (Double.sub (dec 2 0) Double.nan)) = false ∧
    Double.le Double.zero
      (((Customer.new "Alice" "123 Main St").setDues (dec 2 0)).makePayment Double.nan).dues =
      false ∧
    (((Customer.new "Alice" "123 Main St").setDues (dec 1 16)).makePayment (dec 1 0)).dues =
      dec 1 16 ∧
    Double.toRat (dec 1 16) = 10000000000000000 ∧
    Double.toRat (dec 1 16) - Double.toRat (dec 1 0) = 9999999999999999 := by
  have h16 : dec 1 16 = Double.fin false 5000000000000000 1 := by decide!
  have h1 : dec 1 0 = Double.fin false 4503599627370496 (-52) := by decide!
  refine ⟨by decide!, by decide!, by decide!, by decide!, ?_, ?_⟩
  · rw [h16]
    norm_num [Double.toRat]
  · rw [h16, h1]
    norm_num [Double.toRat]

/-- C3, amended to the rounded difference and to a difference that is not
NaN: when the double difference `priorDues - p` is not NaN, the dues after
`makePayment(p)` are `max(0, priorDues - p)`, the subtraction being the
rounded double subtraction, and they are `>= 0`; when the difference is NaN
the dues become NaN. -/
theorem makePayment_dues_rounded (c : Customer) (p : Double) :
    (Double.sub c.dues p ≠ Double.nan →
      (c.makePayment p).dues = Double.max Double.zero (Double.sub c.dues p) ∧
      Double.le Double.zero (c.makePayment p).dues = true) ∧
    (Double.sub c.dues p = Double.nan → (c.makePayment p).dues = Double.nan) := by
  constructor
  · intro hnan
    cases hle : Double.le (Double.sub c.dues p) Double.zero with
    | true =>
      have hlt := not_lt_zero_of_le_zero _ hle
      simp only [Customer.makePayment, hle, if_true, Double.max, hlt]
      exact ⟨by simp, by decide!⟩
    | false =>
      have hlt := lt_zero_of_not_le_zero _ hnan hle
      simp only [Customer.makePayment, hle, Double.max, hlt, if_true]
      exact ⟨by simp, by simpa using le_zero_of_lt_zero _ hlt⟩
  · intro hnan
    simp [Customer.makePayment, hnan, Double.le]

/-- C3 amended, at dues 1e16 and the payment 1: the difference is not NaN
and the dues are `max(0, 1e16 - 1)` with the rounded difference, that is
1e16. -/
theorem makePayment_dues_rounded_witness :
    Double.sub ((Customer.new "Alice" "123 Main St").setDues (dec 1 16)).dues (dec 1 0) ≠
      Double.nan ∧
    (((Customer.new "Alice" "123 Main St").setDues (dec 1 16)).makePayment (dec 1 0)).dues =
      Double.max Double.zero
        (Double.sub ((Customer.new "Alice" "123 Main St").setDues (dec 1 16)).dues (dec 1 0)) ∧
    Double.le Double.zero
      (((Customer.new "Alice" "123 Main St").setDues (dec 1 16)).makePayment (dec 1 0)).dues =
      true :=
  ⟨by decide!,
   (makePayment_dues_rounded ((Customer.new "Alice" "123 Main St").setDues (dec 1 16))
      (dec 1 0)).1 (by decide!)⟩

/-! ## C7: the monthly bill -/

theorem totalCost_eq_doubleSum (subscriptions : List Publication) :
    totalCost subscriptions = doubleSum (subscriptions.map (fun pub => pub.pricePerCopy)) := by
  simp only [totalCost, doubleSum, List.foldl_map]

theorem printMonthlyBillLoop_first_b64 (name : String) (c : Customer) (post : List Customer)
    (hc : c.name = name) :
    ∀ pre : List Customer, (∀ x ∈ pre, x.name ≠ name) →
      printMonthlyBillLoop name (pre ++ c :: post) =
        (pre ++ c.setDues (totalCost c.subscriptions) :: post,
          billText name (totalCost c.subscriptions)) := by
  intro pre
  induction pre with
  | nil => intro _; simp [printMonthlyBillLoop, hc, billText]
  | cons x rest ih =>
    intro hpre
    have hx : x.name ≠ name := hpre x (List.mem_cons_self _ _)
    have hrest : ∀ y ∈ rest, y.name ≠ name := fun y hy => hpre y (List.mem_cons_of_mem _ hy)
    simp [printMonthlyBillLoop, hx, ih hrest]

theorem printMonthlyBillLoop_none_b64 (name : String) :
    ∀ cs : List Customer, (∀ x ∈ cs, x.name ≠ name) →
      printMonthlyBillLoop name cs = (cs, []) := by
  intro cs
  induction cs with
  | nil => intro _; simp [printMonthlyBillLoop]
  | cons x rest ih =>
    intro hcs
    have hx : x.name ≠ name := hcs x (List.mem_cons_self _ _)
    have hrest : ∀ y ∈ rest, y.name ≠ name := fun y hy => hcs y (List.mem_cons_of_mem _ hy)
    simp [printMonthlyBillLoop, hx, ih hrest]

theorem printReceiptsLoop_first_b64 (name : String) (amount : Double) (c : Customer)
    (post : List Customer) (hc : c.name = name) :
    ∀ pre : List Customer, (∀ x ∈ pre, x.name ≠ name) →
      (printReceiptsLoop name amount (pre ++ c :: post)).1 =
        pre ++ c.makePayment amount :: post := by
  intro pre
  induction pre with
  | nil => intro _; simp [printReceiptsLoop, hc]
  | cons x rest ih =>
    intro hpre
    have hx : x.name ≠ name := hpre x (List.mem_cons_self _ _)
    have hrest : ∀ y ∈ rest, y.name ≠ name := fun y hy => hpre y (List.mem_cons_of_mem _ hy)
    simp [printReceiptsLoop, hx, ih hrest]

/-- C7 as stated fails: the dues are not the sum of the prices.  With the
prices 1e16, 1, 1 the bill sets dues 1e16, while the prices sum to 1e16 + 2;
with the prices 1e16, 1, -1e16 it sets dues 0 and `hasOutstandingDue = false`,
while the prices sum to 1, which is `> 0`. -/
theorem printMonthlyBill_not_exact_sum :
    (printMonthlyBill (agencyOf [dec 1 16, dec 1 0, dec 1 0] []) "Alice").1.customers.map
        (fun c => (c.dues, c.hasOutstandingDue)) = [(dec 1 16, true)] ∧
    Double.toRat (dec 1 16) = 10000000000000000 ∧
    Double.toRat (dec 1 16) + Double.toRat (dec 1 0) + Double.toRat (dec 1 0) =
      10000000000000002 ∧
    (printMonthlyBill (agencyOf [dec 1 16, dec 1 0, Double.neg (dec 1 16)] [])
        "Alice").1.customers.map (fun c => (c.dues, c.hasOutstandingDue)) =
      [(Double.zero, false)] ∧
    Double.toRat (dec 1 16) + Double.toRat (dec 1 0) + Double.toRat (Double.neg (dec 1 16)) =
      1 := by
  have h16 : dec 1 16 = Double.fin false 5000000000000000 1 := by decide!
  have h1 : dec 1 0 = Double.fin false 4503599627370496 (-52) := by decide!
  refine ⟨by decide!, ?_, ?_, by decide!, ?_⟩
  · rw [h16]
    norm_num [Double.toRat]
  · rw [h16, h1]
    norm_num [Double.toRat]
  · rw [h16, h1]
    norm_num [Double.toRat, Double.neg]

/-- C7, amended to the sum as the program accumulates it:
`printMonthlyBill(name)` changes only the first customer named `name`: its
dues become the double sum of the prices of its subscriptions, accumulated
from 0 left to right with every addition rounded (whatever the dues were
before), and `hasOutstandingDue` becomes `that double sum > 0`; all other
customers (later namesakes included), the publications, the delivery persons
and the schedule map stay as they were, and the bill is printed.  With no
customer of that name the state is unchanged and nothing is printed. -/
theorem printMonthlyBill_rounded_sum (a : Agency) (name : String) :
    (∀ (pre : List Customer) (c : Customer) (post : List Customer),
      a.customers = pre ++ c :: post → (∀ x ∈ pre, x.name ≠ name) → c.name = name →
      printMonthlyBill a name =
        ({ a with customers :=
            pre ++ { c with
                dues := doubleSum (c.subscriptions.map (fun pub => pub.pricePerCopy)),
                hasOutstandingDue := Double.lt Double.zero
                  (doubleSum (c.subscriptions.map (fun pub => pub.pricePerCopy))) } :: post },
          billText name (doubleSum (c.subscriptions.map (fun pub => pub.pricePerCopy))))) ∧
    ((∀ x ∈ a.customers, x.name ≠ name) → printMonthlyBill a name = (a, [])) := by
  constructor
  · intro pre c post hcs hpre hc
    unfold printMonthlyBill
    rw [hcs, printMonthlyBillLoop_first_b64 name c post hc pre hpre, totalCost_eq_doubleSum]
    rfl
  · intro hnone
    unfold printMonthlyBill
    rw [printMonthlyBillLoop_none_b64 name a.customers hnone]

/-- C7 amended, at Bob followed by Alice with the prices 0.1 and 0.2:
billing "Alice" sets her dues to 0.30000000000000004 and raises her flag,
Bob is untouched; billing "Carol" does nothing. -/
theorem printMonthlyBill_rounded_sum_witness :
    (printMonthlyBill (bobAndAlice [dec 1 (-1), dec 2 (-1)]) "Alice").1.customers.map
        (fun c => (c.name, c.dues, c.hasOutstandingDue)) =
      [("Bob", Double.zero, false), ("Alice", dec 30000000000000004 (-17), true)] ∧
    printMonthlyBill (bobAndAlice [dec 1 (-1), dec 2 (-1)]) "Carol" =
      (bobAndAlice [dec 1 (-1), dec 2 (-1)], []) := by
  constructor
  · rw [(printMonthlyBill_rounded_sum (bobAndAlice [dec 1 (-1), dec 2 (-1)]) "Alice").1
      [Customer.new "Bob" "456 Elm St"] (aliceWith [dec 1 (-1), dec 2 (-1)]) [] rfl
      (by decide!) rfl]
    decide!
  · exact (printMonthlyBill_rounded_sum (bobAndAlice [dec 1 (-1), dec 2 (-1)]) "Carol").2
      (by decide!)

/-! ## C9: bill, then pay the bill -/

/-- C9 as stated fails.  In `twoAlices` the customer at index 1 is named
"Alice" and her one price is 1.5, but after `printMonthlyBill("Alice")` her
dues are still 0 and her flag false (the first Alice was billed).  With the
prices 1e308 and 1e308 the billed total is +infinity and paying it leaves
dues NaN with the flag still true.  With the prices 0.1 and 0.2 the billed
total is 0.30000000000000004, and paying 0.3 leaves dues 2^-54 with the flag
still true. -/
theorem bill_then_receipt_failures :
    (twoAlices.customers[1]?).map
        (fun c => (c.name, doubleSum (c.subscriptions.map (fun pub => pub.pricePerCopy)))) =
      some ("Alice", dec 15 (-1)) ∧
    ((printMonthlyBill twoAlices "Alice").1.customers[1]?).map
        (fun c => (c.dues, c.hasOutstandingDue)) = some (Double.zero, false) ∧
    (printMonthlyBill (agencyOf [dec 1 308, dec 1 308] []) "Alice").1.customers.map
        (fun c => (c.dues, c.hasOutstandingDue)) = [(Double.inf false, true)] ∧
    (printReceipts (printMonthlyBill (agencyOf [dec 1 308, dec 1 308] []) "Alice").1 "Alice"
        (Double.inf false)).1.customers.map (fun c => (c.dues, c.hasOutstandingDue)) =
      [(Double.nan, true)] ∧
    (printMonthlyBill (agencyOf [dec 1 (-1), dec 2 (-1)] []) "Alice").1.customers.map
        (fun c => (c.dues, c.hasOutstandingDue)) = [(dec 30000000000000004 (-17), true)] ∧
    (printReceipts (printMonthlyBill (agencyOf [dec 1 (-1), dec 2 (-1)] []) "Alice").1 "Alice"
        (dec 3 (-1))).1.customers.map (fun c => (c.dues, c.hasOutstandingDue)) =
      [(Double.fin false 4503599627370496 (-106), true)] := by
  refine ⟨by decide!, by decide!, by decide!, by decide!, by decide!, by decide!⟩

/-- C9, amended to the first customer of the name and to a billed total that
is finite: if the first customer named `n` has subscription prices whose
double sum `T` (accumulated as the bill does) is `> 0` and not +infinity,
then after `printMonthlyBill(n)` that customer has dues `T` and
`hasOutstandingDue = true`, and after a following `printReceipts(n, T)` it has
dues `0` and `hasOutstandingDue = false`; its neighbours in the list are
unchanged. -/
theorem bill_then_receipt_first_finite (a : Agency) (n : String) (T : Double)
    (pre : List Customer) (c : Customer) (post : List Customer)
    (hcs : a.customers = pre ++ c :: post) (hpre : ∀ x ∈ pre, x.name ≠ n) (hc : c.name = n)
    (hsum : doubleSum (c.subscriptions.map (fun pub => pub.pricePerCopy)) = T)
    (hT : Double.lt Double.zero T = true) (hfin : T ≠ Double.inf false) :
    ∃ c1 c2 : Customer,
      (printMonthlyBill a n).1.customers = pre ++ c1 :: post ∧
      c1.dues = T ∧ c1.hasOutstandingDue = true ∧
      (printReceipts (printMonthlyBill a n).1 n T).1.customers = pre ++ c2 :: post ∧
      c2.dues = Double.zero ∧ c2.hasOutstandingDue = false := by
  have hbill : (printMonthlyBill a n).1.customers = pre ++ c.setDues T :: post := by
    simp only [printMonthlyBill]
    rw [hcs, printMonthlyBillLoop_first_b64 n c post hc pre hpre, totalCost_eq_doubleSum, hsum]
  have hname : (c.setDues T).name = n := hc
  have hsub : Double.sub T T = Double.zero := by
    cases T with
    | nan => simp [Double.lt, Double.zero] at hT
    | inf s =>
      cases s
      · exact absurd rfl hfin
      · simp [Double.lt, Double.zero] at hT
    | fin s m e => exact sub_self_fin s m e
  have hle : Double.le Double.zero Double.zero = true := by decide
  refine ⟨c.setDues T, (c.setDues T).makePayment T, hbill, rfl, ?_, ?_, ?_, ?_⟩
  · simp [Customer.setDues, hT]
  · simp only [printReceipts]
    rw [hbill, printReceiptsLoop_first_b64 n T (c.setDues T) post hname pre hpre]
  · simp [Customer.makePayment, Customer.setDues, hsub, hle]
  · simp [Customer.makePayment, Customer.setDues, hsub, hle]

/-- C9 amended, at Bob followed by Alice with the one price 1.5: she is billed
1.5 and pays 1.5. -/
theorem bill_then_receipt_first_finite_witness :
    Double.lt Double.zero (dec 15 (-1)) = true ∧ dec 15 (-1) ≠ Double.inf false ∧
    ∃ c1 c2 : Customer,
      (printMonthlyBill (bobAndAlice [dec 15 (-1)]) "Alice").1.customers =
        [Customer.new "Bob" "456 Elm St"] ++ c1 :: [] ∧
      c1.dues = dec 15 (-1) ∧ c1.hasOutstandingDue = true ∧
      (printReceipts (printMonthlyBill (bobAndAlice [dec 15 (-1)]) "Alice").1 "Alice"
        (dec 15 (-1))).1.customers = [Customer.new "Bob" "456 Elm St"] ++ c2 :: [] ∧
      c2.dues = Double.zero ∧ c2.hasOutstandingDue = false :=
  ⟨by decide!, by decide!,
   bill_then_receipt_first_finite (bobAndAlice [dec 15 (-1)]) "Alice" (dec 15 (-1))
    [Customer.new "Bob" "456 Elm St"] (aliceWith [dec 15 (-1)]) [] rfl (by decide!) rfl
    (by decide!) (by decide!) (by decide!)⟩

/-! ## The schedule map and the schedule loop over binary64 -/

theorem mapFind_mapAssign_self_b64 (k : String) (v : Schedule) (m : ScheduleMap) :
    mapFind k (mapAssign k v m) = some v := by
  induction m with
  | nil => simp [mapAssign, mapFind]
  | cons e rest ih =>
    obtain ⟨k', v'⟩ := e
    unfold mapAssign
    split_ifs with h1 h2
    · simp [mapFind]
    · simp [mapFind]
    · simp [mapFind, h2, ih]

theorem mapFind_mapAssign_ne_b64 (k k2 : String) (v : Schedule) (m : ScheduleMap)
    (h : k ≠ k2) : mapFind k2 (mapAssign k v m) = mapFind k2 m := by
  induction m with
  | nil => simp [mapAssign, mapFind, h]
  | cons e rest ih =>
    obtain ⟨k', v'⟩ := e
    unfold mapAssign
    split_ifs with h1 h2
    · simp [mapFind, h]
    · subst h2
      simp [mapFind, h]
    · by_cases h3 : k' = k2
      · simp [mapFind, h3]
      · simp [mapFind, h3, ih]

theorem mapFind_foldl_mapAssign_b64 (v : Schedule) (dps : List DeliveryPerson) :
    ∀ (m : ScheduleMap) (k : String),
      mapFind k (dps.foldl (fun m dp => mapAssign dp.name v m) m) =
        if k ∈ dps.map (fun dp => dp.name) then some v else mapFind k m := by
  induction dps with
  | nil => intro m k; simp
  | cons dp rest ih =>
    intro m k
    rw [List.foldl_cons, ih]
    by_cases hk : k ∈ rest.map (fun dp => dp.name)
    · simp only [List.map_cons, List.mem_cons, hk, or_true, if_true]
    · by_cases hd : dp.name = k
      · subst hd
        simp [hk, mapFind_mapAssign_self_b64]
      · have hd2 : ¬ k = dp.name := fun h => hd h.symm
        simp only [List.map_cons, List.mem_cons, hk, hd2, or_self, if_false]
        exact mapFind_mapAssign_ne_b64 _ _ _ _ hd

theorem buildSchedule_foldl_b64 (customers : List Customer) :
    ∀ acc : Schedule,
      customers.foldl
        (fun schedule customer =>
          if !customer.deliveriesStopped then
            schedule ++ [(customer.getAddress, customer.subscriptions)]
          else schedule)
        acc = acc ++ activeEntries customers := by
  induction customers with
  | nil => intro acc; simp [activeEntries]
  | cons c rest ih =>
    intro acc
    rw [List.foldl_cons, ih]
    cases hc : c.deliveriesStopped <;>
      simp [activeEntries, hc, Customer.getAddress]

theorem buildSchedule_eq_b64 (customers : List Customer) :
    buildSchedule customers = activeEntries customers := by
  unfold buildSchedule
  rw [buildSchedule_foldl_b64]
  simp

theorem mapFind_createDeliverySchedule_b64 (a : Agency) (dp : DeliveryPerson)
    (hdp : dp ∈ a.deliveryPersons) :
    mapFind dp.name (createDeliverySchedule a).deliverySchedules =
      some (activeEntries a.customers) := by
  have hmem : dp.name ∈ a.deliveryPersons.map (fun dp => dp.name) :=
    List.mem_map_of_mem _ hdp
  simp only [createDeliverySchedule]
  rw [mapFind_foldl_mapAssign_b64, if_pos hmem, buildSchedule_eq_b64]

/-- The nested loops of `calculateDeliveryEarnings` over one schedule are one
left-to-right accumulation over the prices of the schedule, entry by entry. -/
theorem scheduleEarnings_foldl_b64 (schedule : Schedule) :
    ∀ acc : Double,
      schedule.foldl
        (fun earnings delivery =>
          delivery.2.foldl (fun e pub => Double.add e (Double.mul pub.pricePerCopy c0025))
            earnings)
        acc =
      ((schedule.map (fun delivery => delivery.2.map (fun pub => pub.pricePerCopy))).flatten).foldl
        (fun e price => Double.add e (Double.mul price c0025)) acc := by
  induction schedule with
  | nil => intro acc; simp
  | cons delivery rest ih =>
    intro acc
    rw [List.foldl_cons, ih]
    simp only [List.map_cons, List.flatten_cons, List.foldl_append, List.foldl_map]

theorem scheduleEarnings_activeEntries_b64 (customers : List Customer) :
    scheduleEarnings (activeEntries customers) = earningsOfPrices (activePrices customers) := by
  unfold scheduleEarnings earningsOfPrices
  rw [scheduleEarnings_foldl_b64]
  simp [activeEntries, activePrices, List.map_map, Function.comp_def]

theorem entryOrEmpty_mapAssign_empty_b64 (k k2 : String) (m : ScheduleMap)
    (h : mapFind k m = none) :
    entryOrEmpty (mapAssign k [] m) k2 = entryOrEmpty m k2 := by
  unfold entryOrEmpty
  by_cases hk : k = k2
  · subst hk
    rw [mapFind_mapAssign_self_b64, h]
    rfl
  · rw [mapFind_mapAssign_ne_b64 k k2 [] m hk]

/-- The loop of `calculateDeliveryEarnings` in closed form: every delivery
person gains, by one `addEarnings`, the earnings of the entry read under its
name (empty when the key is missing), and the map afterwards reads the same
under every key. -/
theorem calculateDeliveryEarningsLoop_spec_b64 :
    ∀ (dps : List DeliveryPerson) (m : ScheduleMap),
      (calculateDeliveryEarningsLoop dps m).1 =
        dps.map (fun dp => dp.addEarnings (scheduleEarnings (entryOrEmpty m dp.name))) ∧
      ∀ k : String,
        entryOrEmpty (calculateDeliveryEarningsLoop dps m).2.1 k = entryOrEmpty m k := by
  intro dps
  induction dps with
  | nil => intro m; simp [calculateDeliveryEarningsLoop]
  | cons dp rest ih =>
    intro m
    cases hfind : mapFind dp.name m with
    | some v =>
      have h := ih m
      refine ⟨?_, ?_⟩
      · simp [calculateDeliveryEarningsLoop, mapIndex, hfind, h.1, entryOrEmpty]
      · intro k
        simp only [calculateDeliveryEarningsLoop, mapIndex, hfind]
        exact h.2 k
    | none =>
      have h := ih (mapAssign dp.name [] m)
      have hsame := fun k2 => entryOrEmpty_mapAssign_empty_b64 dp.name k2 m hfind
      refine ⟨?_, ?_⟩
      · simp only [calculateDeliveryEarningsLoop, mapIndex, hfind, List.map_cons]
        rw [h.1]
        simp only [hsame]
        simp [entryOrEmpty, hfind]
      · intro k
        simp only [calculateDeliveryEarningsLoop, mapIndex, hfind]
        rw [h.2 k, hsame k]

/-- When every delivery person's name is already bound to `schedule`, the
loop of `calculateDeliveryEarnings` leaves the map as it is. -/
theorem calculateDeliveryEarningsLoop_bound_b64 (schedule : Schedule) (m : ScheduleMap) :
    ∀ dps : List DeliveryPerson, (∀ dp ∈ dps, mapFind dp.name m = some schedule) →
      (calculateDeliveryEarningsLoop dps m).1 =
        dps.map (fun dp => dp.addEarnings (scheduleEarnings schedule)) ∧
      (calculateDeliveryEarningsLoop dps m).2.1 = m := by
  intro dps
  induction dps with
  | nil => intro _; simp [calculateDeliveryEarningsLoop]
  | cons dp rest ih =>
    intro h
    have hdp : mapFind dp.name m = some schedule := h dp (List.mem_cons_self _ _)
    have hrest := ih (fun x hx => h x (List.mem_cons_of_mem _ hx))
    simp [calculateDeliveryEarningsLoop, mapIndex, hdp, hrest.1, hrest.2]

/-- The delivery persons after a rebuild followed by
`calculateDeliveryEarnings`. -/
theorem deliveryPersons_after_rebuild_b64 (a : Agency) :
    (calculateDeliveryEarnings (createDeliverySchedule a)).1.deliveryPersons =
      a.deliveryPersons.map
        (fun dp => dp.addEarnings (earningsOfPrices (activePrices a.customers))) := by
  have h := calculateDeliveryEarningsLoop_bound_b64 (activeEntries a.customers)
    (createDeliverySchedule a).deliverySchedules (createDeliverySchedule a).deliveryPersons
    (fun dp hdp => mapFind_createDeliverySchedule_b64 a dp hdp)
  simp only [calculateDeliveryEarnings]
  rw [h.1, scheduleEarnings_activeEntries_b64]
  rfl

/-! ## C10: earnings right after a schedule rebuild -/

/-- C10 as stated fails.  With one customer subscribed to one publication at
2.00, John at 0.1 ends at 0.15000000000000002 and Jane at 0 ends at 0.05:
their exact increases differ.  With the prices 2.5 and 1.2 a delivery person
at 0 ends at 0.0925, while 0.025 times the double sum of the prices is
0.09250000000000001. -/
theorem calculateDeliveryEarnings_increase_varies :
    (calculateDeliveryEarnings (createDeliverySchedule
        (agencyOf [dec 2 0]
          [{ name := "John", totalEarnings := dec 1 (-1) },
           { name := "Jane", totalEarnings := Double.zero }]))).1.deliveryPersons =
      [{ name := "John", totalEarnings := dec 15000000000000002 (-17) },
       { name := "Jane", totalEarnings := dec 5 (-2) }] ∧
    Double.toRat (dec 15000000000000002 (-17)) - Double.toRat (dec 1 (-1)) ≠
      Double.toRat (dec 5 (-2)) - Double.toRat Double.zero ∧
    (calculateDeliveryEarnings (createDeliverySchedule
        (agencyOf [dec 25 (-1), dec 12 (-1)]
          [{ name := "John", totalEarnings := Double.zero }]))).1.deliveryPersons =
      [{ name := "John", totalEarnings := dec 925 (-4) }] ∧
    Double.mul c0025 (doubleSum [dec 25 (-1), dec 12 (-1)]) = dec 9250000000000001 (-17) ∧
    dec 925 (-4) ≠ dec 9250000000000001 (-17) := by
  have h1 : dec 15000000000000002 (-17) = Double.fin false 5404319552844596 (-55) := by decide!
  have h2 : dec 1 (-1) = Double.fin false 7205759403792794 (-56) := by decide!
  have h3 : dec 5 (-2) = Double.fin false 7205759403792794 (-57) := by decide!
  refine ⟨?_, ?_, ?_, by decide!, by decide!⟩
  · rw [deliveryPersons_after_rebuild_b64]
    decide!
  · rw [h1, h2, h3]
    norm_num [Double.toRat, Double.zero]
  · rw [deliveryPersons_after_rebuild_b64]
    decide!

/-- C10, amended to what is added: `calculateDeliveryEarnings` run right
after `createDeliverySchedule` adds to the `totalEarnings` of every delivery
person, by one rounded double addition, one and the same double `e`; `e` is
accumulated from 0 as `e := e + pricePerCopy * 0.025` (product and sum each
rounded) over all subscriptions of all customers whose `deliveriesStopped`
flag is false, in customer and subscription order.  Names, customers and the
schedule map are left as the rebuild made them. -/
theorem calculateDeliveryEarnings_after_rebuild_rounded (a : Agency) :
    (calculateDeliveryEarnings (createDeliverySchedule a)).1.deliveryPersons =
      a.deliveryPersons.map (fun dp =>
        (⟨dp.name, Double.add dp.totalEarnings
          (earningsOfPrices (activePrices a.customers))⟩ : DeliveryPerson)) ∧
    (calculateDeliveryEarnings (createDeliverySchedule a)).1.customers = a.customers ∧
    (calculateDeliveryEarnings (createDeliverySchedule a)).1.deliverySchedules =
      (createDeliverySchedule a).deliverySchedules := by
  have h := calculateDeliveryEarningsLoop_bound_b64 (activeEntries a.customers)
    (createDeliverySchedule a).deliverySchedules (createDeliverySchedule a).deliveryPersons
    (fun dp hdp => mapFind_createDeliverySchedule_b64 a dp hdp)
  refine ⟨?_, rfl, ?_⟩
  · rw [deliveryPersons_after_rebuild_b64]
    rfl
  · simp only [calculateDeliveryEarnings]
    exact h.2

/-- C10 amended, at the scenario of the specification: two delivery persons
at 0, one customer with deliveries running and one publication at 2.00; each
delivery person ends at 0.05. -/
theorem calculateDeliveryEarnings_after_rebuild_rounded_witness :
    (calculateDeliveryEarnings (createDeliverySchedule
        (agencyOf [dec 2 0] [DeliveryPerson.new "John", DeliveryPerson.new "Jane"]))).1.deliveryPersons =
      [{ name := "John", totalEarnings := dec 5 (-2) },
       { name := "Jane", totalEarnings := dec 5 (-2) }] := by
  rw [(calculateDeliveryEarnings_after_rebuild_rounded
    (agencyOf [dec 2 0] [DeliveryPerson.new "John", DeliveryPerson.new "Jane"])).1]
  decide!

/-! ## C11: earnings computed twice -/

/-- C11 as stated fails: John at 0.05 with a schedule worth 0.05 is at 0.1
after one run and at 0.15000000000000002 after two; the exact raise over two
runs is not twice the exact raise of one run. -/
theorem calculateDeliveryEarnings_twice_not_double :
    johnAtFiveCents.deliveryPersons.map (fun dp => dp.totalEarnings) = [dec 5 (-2)] ∧
    (calculateDeliveryEarnings johnAtFiveCents).1.deliveryPersons.map
        (fun dp => dp.totalEarnings) = [dec 1 (-1)] ∧
    (calculateDeliveryEarnings (calculateDeliveryEarnings johnAtFiveCents).1).1.deliveryPersons.map
        (fun dp => dp.totalEarnings) = [dec 15000000000000002 (-17)] ∧
    Double.toRat (dec 15000000000000002 (-17)) - Double.toRat (dec 5 (-2)) ≠
      2 * (Double.toRat (dec 1 (-1)) - Double.toRat (dec 5 (-2))) := by
  have h1 : dec 15000000000000002 (-17) = Double.fin false 5404319552844596 (-55) := by decide!
  have h2 : dec 1 (-1) = Double.fin false 7205759403792794 (-56) := by decide!
  have h3 : dec 5 (-2) = Double.fin false 7205759403792794 (-57) := by decide!
  refine ⟨by decide!, by decide!, by decide!, ?_⟩
  rw [h1, h2, h3]
  norm_num [Double.toRat]

/-- C11, amended to what each run adds: two runs of
`calculateDeliveryEarnings` in a row, with no schedule rebuild in between,
each add to a delivery person's `totalEarnings`, by one rounded double
addition, the same double `e`, the earnings of the entry stored under its
name (0 without an entry): the total goes from `t` to `t + e` and then to
`(t + e) + e`. -/
theorem calculateDeliveryEarnings_twice_rounded (a : Agency) :
    (calculateDeliveryEarnings a).1.deliveryPersons.map
        (fun dp => (dp.name, dp.totalEarnings)) =
      a.deliveryPersons.map (fun dp =>
        (dp.name,
          Double.add dp.totalEarnings
            (scheduleEarnings (entryOrEmpty a.deliverySchedules dp.name)))) ∧
    (calculateDeliveryEarnings (calculateDeliveryEarnings a).1).1.deliveryPersons.map
        (fun dp => (dp.name, dp.totalEarnings)) =
      a.deliveryPersons.map (fun dp =>
        (dp.name,
          Double.add
            (Double.add dp.totalEarnings
              (scheduleEarnings (entryOrEmpty a.deliverySchedules dp.name)))
            (scheduleEarnings (entryOrEmpty a.deliverySchedules dp.name)))) := by
  have h1 := calculateDeliveryEarningsLoop_spec_b64 a.deliveryPersons a.deliverySchedules
  have h2 := calculateDeliveryEarningsLoop_spec_b64
    (calculateDeliveryEarnings a).1.deliveryPersons
    (calculateDeliveryEarnings a).1.deliverySchedules
  have hm : ∀ k, entryOrEmpty (calculateDeliveryEarnings a).1.deliverySchedules k =
      entryOrEmpty a.deliverySchedules k := h1.2
  have hd : (calculateDeliveryEarnings a).1.deliveryPersons =
      a.deliveryPersons.map
        (fun dp => dp.addEarnings (scheduleEarnings (entryOrEmpty a.deliverySchedules dp.name))) :=
    h1.1
  have h3 : (calculateDeliveryEarnings (calculateDeliveryEarnings a).1).1.deliveryPersons =
      (calculateDeliveryEarnings a).1.deliveryPersons.map
        (fun dp => dp.addEarnings
          (scheduleEarnings (entryOrEmpty (calculateDeliveryEarnings a).1.deliverySchedules
            dp.name))) := h2.1
  refine ⟨?_, ?_⟩
  · rw [hd, List.map_map]
    rfl
  · rw [h3, hd, List.map_map, List.map_map]
    apply List.map_congr_left
    intro dp _
    simp only [Function.comp, DeliveryPerson.addEarnings, hm]

/-! ## C14: the sign of `dues` -/

theorem totalCost_foldl_nonneg_b64 (subscriptions : List Publication) :
    ∀ acc : Double, Double.le Double.zero acc = true →
      (∀ pub ∈ subscriptions, Double.le Double.zero pub.pricePerCopy = true) →
      Double.le Double.zero
        (subscriptions.foldl (fun total pub => Double.add total pub.pricePerCopy) acc) = true := by
  induction subscriptions with
  | nil => intro acc h _; exact h
  | cons pub rest ih =>
    intro acc h hp
    rw [List.foldl_cons]
    exact ih _ (add_nonneg_b64 acc pub.pricePerCopy h (hp pub (List.mem_cons_self _ _)))
      (fun q hq => hp q (List.mem_cons_of_mem _ hq))

theorem makePayment_dues_nonneg_b64 (c : Customer) (p : Double)
    (hnan : Double.sub c.dues p ≠ Double.nan) :
    Double.le Double.zero (c.makePayment p).dues = true := by
  cases hle : Double.le (Double.sub c.dues p) Double.zero with
  | true =>
    simp only [Customer.makePayment, hle, if_true]
    decide
  | false =>
    have hlt := lt_zero_of_not_le_zero _ hnan hle
    simp only [Customer.makePayment, hle]
    simpa using le_zero_of_lt_zero _ hlt

theorem printMonthlyBillLoop_dues_nonneg_b64 (name : String) :
    ∀ cs : List Customer, (∀ c ∈ cs, Double.le Double.zero c.dues = true) →
      (∀ c ∈ cs, ∀ pub ∈ c.subscriptions, Double.le Double.zero pub.pricePerCopy = true) →
      ∀ c ∈ (printMonthlyBillLoop name cs).1, Double.le Double.zero c.dues = true := by
  intro cs
  induction cs with
  | nil => intro _ _ c hc; simp [printMonthlyBillLoop] at hc
  | cons x rest ih =>
    intro hd hp c hc
    have hrest := ih (fun y hy => hd y (List.mem_cons_of_mem _ hy))
      (fun y hy => hp y (List.mem_cons_of_mem _ hy))
    by_cases hx : x.name = name
    · simp only [printMonthlyBillLoop, hx, if_true, List.mem_cons] at hc
      rcases hc with rfl | hc
      · simp only [Customer.setDues, totalCost]
        exact totalCost_foldl_nonneg_b64 _ _ (by decide) (hp x (List.mem_cons_self _ _))
      · exact hd c (List.mem_cons_of_mem _ hc)
    · simp only [printMonthlyBillLoop, hx, if_false, List.mem_cons] at hc
      rcases hc with rfl | hc
      · exact hd _ (List.mem_cons_self _ _)
      · exact hrest c hc

theorem printReceiptsLoop_dues_nonneg_b64 (name : String) (amount : Double) :
    ∀ cs : List Customer, (∀ c ∈ cs, Double.le Double.zero c.dues = true) →
      (∀ c ∈ cs, c.name = name → Double.sub c.dues amount ≠ Double.nan) →
      ∀ c ∈ (printReceiptsLoop name amount cs).1, Double.le Double.zero c.dues = true := by
  intro cs
  induction cs with
  | nil => intro _ _ c hc; simp [printReceiptsLoop] at hc
  | cons x rest ih =>
    intro hd hn c hc
    have hrest := ih (fun y hy => hd y (List.mem_cons_of_mem _ hy))
      (fun y hy => hn y (List.mem_cons_of_mem _ hy))
    by_cases hx : x.name = name
    · simp only [printReceiptsLoop, hx, if_true, List.mem_cons] at hc
      rcases hc with rfl | hc
      · exact makePayment_dues_nonneg_b64 x amount (hn x (List.mem_cons_self _ _) hx)
      · exact hd c (List.mem_cons_of_mem _ hc)
    · simp only [printReceiptsLoop, hx, if_false, List.mem_cons] at hc
      rcases hc with rfl | hc
      · exact hd _ (List.mem_cons_self _ _)
      · exact hrest c hc

/-- C14 as stated fails.  `setDues(-3)` on a fresh customer leaves dues -3;
`printMonthlyBill` for a customer whose only publication costs -2 leaves dues
-2; `makePayment(NaN)` on dues 2 leaves dues NaN, and so does
`setDues(+infinity)` followed by `makePayment(+infinity)`: none of these is
`>= 0`. -/
theorem dues_not_always_nonneg :
    ((Customer.new "Alice" "123 Main St").setDues (Double.neg (dec 3 0))).dues =
      Double.neg (dec 3 0) ∧
    Double.le Double.zero (Double.neg (dec 3 0)) = false ∧
    (printMonthlyBill (agencyOf [Double.neg (dec 2 0)] []) "Alice").1.customers.map
        (fun c => c.dues) = [Double.neg (dec 2 0)] ∧
    Double.le Double.zero (Double.neg (dec 2 0)) = false ∧
    (((Customer.new "Alice" "123 Main St").setDues (dec 2 0)).makePayment Double.nan).dues =
      Double.nan ∧
    (((Customer.new "Alice" "123 Main St").setDues (Double.inf false)).makePayment
        (Double.inf false)).dues = Double.nan ∧
    Double.le Double.zero Double.nan = false := by
  refine ⟨by decide!, by decide!, by decide!, by decide!, by decide!, by decide!, by decide!⟩

/-- C14, amended to arguments and prices that are not negative and to
payments whose difference is not NaN: `dues >= 0` holds for a fresh
customer; it is kept by `addSubscription`, `removeSubscription`,
`requestStopDelivery` and `resumeDeliveries`; it holds after `makePayment(p)`
whenever the double difference `dues - p` is not NaN, and after `setDues(x)`
for `x >= 0`; `printReceipts` keeps it for all stored customers when
`dues - amount` is not NaN for the customers of the given name, and
`printMonthlyBill` keeps it when every stored subscription price is `>= 0`. -/
theorem dues_nonneg_of_nonneg_inputs_rounded :
    (∀ n addr : String, Double.le Double.zero (Customer.new n addr).dues = true) ∧
    (∀ c : Customer, Double.le Double.zero c.dues = true →
      (∀ pub : Publication, Double.le Double.zero (c.addSubscription pub).dues = true) ∧
      (∀ pub : PubRef, Double.le Double.zero (c.removeSubscription pub).dues = true) ∧
      (∀ s e : String, Double.le Double.zero (c.requestStopDelivery s e).dues = true) ∧
      Double.le Double.zero c.resumeDeliveries.dues = true) ∧
    (∀ (c : Customer) (p : Double), Double.sub c.dues p ≠ Double.nan →
      Double.le Double.zero (c.makePayment p).dues = true) ∧
    (∀ (c : Customer) (x : Double), Double.le Double.zero x = true →
      Double.le Double.zero (c.setDues x).dues = true) ∧
    (∀ (a : Agency) (name : String) (amount : Double),
      (∀ c ∈ a.customers, Double.le Double.zero c.dues = true) →
      (∀ c ∈ a.customers, c.name = name → Double.sub c.dues amount ≠ Double.nan) →
      ∀ c ∈ (printReceipts a name amount).1.customers, Double.le Double.zero c.dues = true) ∧
    (∀ (a : Agency) (name : String),
      (∀ c ∈ a.customers, Double.le Double.zero c.dues = true) →
      (∀ c ∈ a.customers, ∀ pub ∈ c.subscriptions,
        Double.le Double.zero pub.pricePerCopy = true) →
      ∀ c ∈ (printMonthlyBill a name).1.customers, Double.le Double.zero c.dues = true) := by
  refine ⟨?_, ?_, makePayment_dues_nonneg_b64, ?_, ?_, ?_⟩
  · intro n addr
    exact (by decide : Double.le Double.zero Double.zero = true)
  · intro c hc
    exact ⟨fun _ => hc, fun _ => hc, fun _ _ => hc, hc⟩
  · intro c x h
    exact h
  · intro a name amount hd hn
    exact printReceiptsLoop_dues_nonneg_b64 name amount a.customers hd hn
  · intro a name hd hp
    exact printMonthlyBillLoop_dues_nonneg_b64 name a.customers hd hp

/-- C14 amended, at `setDues(2)`, at the payment 0.5 on dues 2, and at billing
"Alice" in the agency of Bob and Alice with the prices 1.5 and 2. -/
theorem dues_nonneg_of_nonneg_inputs_rounded_witness :
    Double.le Double.zero (dec 2 0) = true ∧
    Double.le Double.zero ((Customer.new "Alice" "123 Main St").setDues (dec 2 0)).dues = true ∧
    Double.sub ((Customer.new "Alice" "123 Main St").setDues (dec 2 0)).dues (dec 5 (-1)) ≠
      Double.nan ∧
    Double.le Double.zero
      (((Customer.new "Alice" "123 Main St").setDues (dec 2 0)).makePayment (dec 5 (-1))).dues =
      true ∧
    (∀ c ∈ (bobAndAlice [dec 15 (-1), dec 2 0]).customers,
      Double.le Double.zero c.dues = true) ∧
    (∀ c ∈ (bobAndAlice [dec 15 (-1), dec 2 0]).customers, ∀ pub ∈ c.subscriptions,
      Double.le Double.zero pub.pricePerCopy = true) ∧
    ∀ c ∈ (printMonthlyBill (bobAndAlice [dec 15 (-1), dec 2 0]) "Alice").1.customers,
      Double.le Double.zero c.dues = true := by
  have hd : ∀ c ∈ (bobAndAlice [dec 15 (-1), dec 2 0]).customers,
      Double.le Double.zero c.dues = true := by decide!
  have hp : ∀ c ∈ (bobAndAlice [dec 15 (-1), dec 2 0]).customers, ∀ pub ∈ c.subscriptions,
      Double.le Double.zero pub.pricePerCopy = true := by decide!
  exact ⟨by decide!,
    dues_nonneg_of_nonneg_inputs_rounded.2.2.2.1 _ (dec 2 0) (by decide!),
    by decide!,
    dues_nonneg_of_nonneg_inputs_rounded.2.2.1 _ (dec 5 (-1)) (by decide!),
    hd, hp,
    dues_nonneg_of_nonneg_inputs_rounded.2.2.2.2.2 (bobAndAlice [dec 15 (-1), dec 2 0]) "Alice"
      hd hp⟩

end Binary64

end NewspaperAgency
